import Mathlib

/-!
Shallow embedding of the flux-core job-manager event engine
(src/modules/job-manager/event.c): the job state machine
(`event_job_update`), the event-post pipeline (`event_job_post_entry`,
`event_job_post_vpack`, `event_job_post_pack`, `event_job_action`) and
the eventlog commit batching engine (`event_batch_commit`,
`commit_continuation`, `event_batch_destroy`).

Modelling conventions:
- C machine integers that are only compared/stored are modelled as `Int`
  or `Nat`; `uint8_t perilog_active` is a `Nat` with the source's explicit
  `UINT8_MAX` overflow guard.
- JSON event-entry contexts are modelled by the inductive `Ctx`, whose
  constructors carry exactly the fields the source's `json_unpack` calls
  extract; a decode fails (EPROTO) exactly when the context does not have
  the shape the corresponding `event_*_context_decode` requires.
- C functions that mutate a `struct job *` in place and return `0`/`-1`
  with `errno` become functions `Job → ... → Job × Option Err`; the
  returned `Job` is the (possibly partially mutated) job, mirroring the
  in-place mutation order of the source.
- External collaborators (KVS, journal, jobtap, alloc, start, wait,
  drain, annotate) are out of scope per the spec; the journal hook is
  modelled by a boolean outcome parameter, and the other collaborator
  calls are modelled as successful no-ops on the job-manager state.
  Allocation failures (ENOMEM paths) are not modelled.
-/

/-- Job states, from `enum flux_job_state` (RFC 21). -/
inductive JobState
  | NEW
  | DEPEND
  | PRIORITY
  | SCHED
  | RUN
  | CLEANUP
  | INACTIVE
deriving DecidableEq, Repr

/-- `FLUX_JOB_STATE_RUNNING` is the mask `RUN | CLEANUP`. -/
def JobState.isRunningState : JobState → Bool
  | .RUN => true
  | .CLEANUP => true
  | _ => false

/-- `errno` values the embedded code distinguishes, plus `EEXTERNAL`
for a failure reported by an external collaborator (its errno is opaque
to this fragment) and `ENOFUEL`, the artificial out-of-recursion-budget
marker of the fuelled post pipeline. -/
inductive Err
  | EINVAL
  | EPROTO
  | EAGAIN
  | EOVERFLOW
  | EEXIST
  | ENOENT
  | EEXTERNAL
  | ENOFUEL
deriving DecidableEq, Repr

/-- Event-entry context payloads.  Each constructor carries the fields
that the corresponding `json_unpack` format string in event.c extracts;
`noCtx` stands for an absent or unrelated context object. -/
inductive Ctx
  | submitCtx (urgency : Int) (userid : Nat) (flags : Nat)
  | priorityCtx (priority : Int)
  | urgencyCtx (urgency : Int)
  | exceptionCtx (severity : Int)
  | releaseCtx (final : Bool)
  | dependencyCtx (description : String)
  | setFlagsCtx (flags : List String)
  | noCtx
deriving DecidableEq, Repr

/-- An eventlog entry per RFC 18: timestamp, name, context.  The f64
timestamp is only ever copied by this fragment, never computed with, so
it is modelled by an opaque-to-the-code integer value. -/
structure EventEntry where
  timestamp : Int
  name : String
  context : Ctx
deriving DecidableEq, Repr

/-- In-memory job record: the fields of `struct job` that event.c reads
or writes.  `dependencies` models the description-keyed dependency set
behind `job_dependency_count`; `eventIds` models the event-id set behind
`job_event_id_set`. -/
structure Job where
  id : Nat := 0
  state : JobState := .NEW
  t_submit : Int := 0
  urgency : Int := 16
  priority : Int := -1
  userid : Nat := 0
  flags : Nat := 0
  has_resources : Bool := false
  alloc_queued : Bool := false
  alloc_pending : Bool := false
  free_pending : Bool := false
  start_pending : Bool := false
  alloc_bypass : Bool := false
  perilog_active : Nat := 0
  depend_posted : Bool := false
  dependencies : List String := []
  end_event : Option EventEntry := none
  eventlog_seq : Int := 0
  eventIds : List Nat := []
deriving DecidableEq, Repr

/-- `strncmp (s, p, strlen p) == 0`: `p` is a leading substring of `s`.
(Defined over `String.data` so that it reduces by `decide`.) -/
def strLeads : List Char → List Char → Bool
  | [], _ => true
  | _ :: _, [] => false
  | a :: as, b :: bs => a = b && strLeads as bs

/-- `name + n`: the suffix of `s` after its first `n` characters. -/
def strAfter (s : String) (n : Nat) : String := ⟨s.data.drop n⟩

/-- `event_submit_context_decode`: unpack urgency, userid, flags. -/
def event_submit_context_decode : Ctx → Option (Int × Nat × Nat)
  | .submitCtx u uid f => some (u, uid, f)
  | _ => none

/-- `event_priority_context_decode`: unpack priority. -/
def event_priority_context_decode : Ctx → Option Int
  | .priorityCtx p => some p
  | _ => none

/-- `event_urgency_context_decode`: unpack urgency. -/
def event_urgency_context_decode : Ctx → Option Int
  | .urgencyCtx u => some u
  | _ => none

/-- `event_exception_context_decode`: unpack severity. -/
def event_exception_context_decode : Ctx → Option Int
  | .exceptionCtx s => some s
  | _ => none

/-- `event_release_context_decode`: unpack final.  N.B. the source
passes `&final` (the address of its `int *final` parameter) to
`json_unpack`, so the decoded boolean overwrites the local pointer and
never reaches the caller, which always observes the pre-set `0`: the
decode succeeds exactly when the context carries a boolean `final`
field, but the value handed back is always false. -/
def event_release_context_decode : Ctx → Option Bool
  | .releaseCtx _ => some false
  | _ => none

/-- Modelled from the spec: `job_dependency_add` (job.c, not under src/)
adds an outstanding dependency keyed by description; a duplicate
description fails. -/
def job_dependency_add (job : Job) (desc : String) : Job × Option Err :=
  if desc ∈ job.dependencies then (job, some .EEXIST)
  else ({ job with dependencies := job.dependencies ++ [desc] }, none)

/-- Modelled from the spec: `job_dependency_remove` (job.c, not under
src/) removes an outstanding dependency keyed by description; an absent
description fails. -/
def job_dependency_remove (job : Job) (desc : String) : Job × Option Err :=
  if desc ∈ job.dependencies then
    ({ job with dependencies := job.dependencies.erase desc }, none)
  else (job, some .ENOENT)

/-- Modelled from the spec: `job_dependency_count` (job.h, not under
src/) returns the number of outstanding dependencies. -/
def job_dependency_count (job : Job) : Nat := job.dependencies.length

/-- `FLUX_JOB_WAITABLE` bit of `job.flags`. -/
def FLUX_JOB_WAITABLE : Nat := 1

/-- `FLUX_JOB_DEBUG` bit of `job.flags`. -/
def FLUX_JOB_DEBUG : Nat := 2

/-- Modelled from the spec: `job_flag_set` (job.c, not under src/) looks
the flag name up in a static table and unions it into `job.flags`. -/
def job_flag_set (job : Job) (name : String) : Job × Option Err :=
  if name = "waitable" then
    ({ job with flags := job.flags ||| FLUX_JOB_WAITABLE }, none)
  else if name = "debug" then
    ({ job with flags := job.flags ||| FLUX_JOB_DEBUG }, none)
  else (job, some .EINVAL)

/-- `event_handle_dependency`: unpack the description, then dispatch on
the command suffix (`add` / `remove`). -/
def event_handle_dependency (job : Job) (cmd : String) (context : Ctx) :
    Job × Option Err :=
  match context with
  | .dependencyCtx desc =>
    if cmd = "add" then job_dependency_add job desc
    else if cmd = "remove" then job_dependency_remove job desc
    else (job, some .EINVAL)
  | _ => (job, some .EPROTO)

/-- `event_handle_set_flags`: unpack the flag-name array and set each
flag; an unknown flag name fails with EPROTO. -/
def event_handle_set_flags (job : Job) (context : Ctx) : Job × Option Err :=
  match context with
  | .setFlagsCtx names =>
    names.foldl
      (fun acc n =>
        match acc with
        | (j, some e) => (j, some e)
        | (j, none) =>
          match job_flag_set j n with
          | (j2, some _) => (j2, some .EPROTO)
          | (j2, none) => (j2, none))
      (job, none)
  | _ => (job, some .EPROTO)

/-- `event_handle_memo` calls the external annotate collaborator
(`annotations_update`); annotations are outside this fragment, so the
call is modelled as a successful no-op on the job. -/
def event_handle_memo (job : Job) (_context : Ctx) : Job × Option Err :=
  (job, none)

/-- `UINT8_MAX`, the bound on the `uint8_t` field `perilog_active`. -/
def UINT8_MAX : Nat := 255

/-- `event_handle_perilog`: a `start` command increments
`perilog_active`, failing with EOVERFLOW at `UINT8_MAX` instead of
wrapping; a `finish` command decrements it only when it is positive;
any other command fails with EPROTO. -/
def event_handle_perilog (job : Job) (cmd : String) (_context : Ctx) :
    Job × Option Err :=
  if cmd = "start" then
    if job.perilog_active = UINT8_MAX then (job, some .EOVERFLOW)
    else ({ job with perilog_active := job.perilog_active + 1 }, none)
  else if cmd = "finish" then
    (if job.perilog_active > 0 then
      { job with perilog_active := job.perilog_active - 1 }
     else job, none)
  else (job, some .EPROTO)

/-- The dispatch ladder of `event_job_update`, as an inductive: each
constructor corresponds to one branch of the source's if/else-if chain,
tested in the source's order (exact `strcmp` matches and `strncmp`
leading-substring matches for `dependency-`, `prolog-`, `epilog-`). -/
inductive EvKind
  | submit
  | dependency (cmd : String)
  | setflags
  | memo
  | depend
  | priority
  | urgency
  | exception
  | alloc
  | free
  | finish
  | release
  | clean
  | prolog (cmd : String)
  | epilog (cmd : String)
  | restart
  | other
deriving DecidableEq, Repr

/-- Classify an event name exactly as the if/else-if chain of
`event_job_update` does, in the same order. -/
def classify (name : String) : EvKind :=
  if name = "submit" then .submit
  else if strLeads "dependency-".data name.data then
    .dependency (strAfter name 11)
  else if name = "set-flags" then .setflags
  else if name = "memo" then .memo
  else if name = "depend" then .depend
  else if name = "priority" then .priority
  else if name = "urgency" then .urgency
  else if name = "exception" then .exception
  else if name = "alloc" then .alloc
  else if name = "free" then .free
  else if name = "finish" then .finish
  else if name = "release" then .release
  else if name = "clean" then .clean
  else if strLeads "prolog-".data name.data then .prolog (strAfter name 7)
  else if strLeads "epilog-".data name.data then .epilog (strAfter name 7)
  else if name = "flux-restart" then .restart
  else .other

/-- `event_job_update`: the RFC 21 state machine.  Returns the mutated
job together with `none` on success or `some errno` on failure; on
failure the job carries exactly the mutations the source performed
before the failing check (e.g. `t_submit` on a submit context-decode
failure). -/
def event_job_update (job : Job) (event : EventEntry) : Job × Option Err :=
  let timestamp := event.timestamp
  let context := event.context
  match classify event.name with
  | .submit =>
    if job.state ≠ .NEW then (job, some .EINVAL)
    else
      let job := { job with t_submit := timestamp }
      match event_submit_context_decode context with
      | none => (job, some .EPROTO)
      | some (u, uid, f) =>
        ({ job with urgency := u, userid := uid, flags := f,
                    state := .DEPEND }, none)
  | .dependency cmd =>
    if job.state ≠ .DEPEND then (job, some .EINVAL)
    else event_handle_dependency job cmd context
  | .setflags => event_handle_set_flags job context
  | .memo => event_handle_memo job context
  | .depend =>
    if job.state ≠ .DEPEND then (job, some .EINVAL)
    else ({ job with state := .PRIORITY }, none)
  | .priority =>
    if job.state ≠ .PRIORITY ∧ job.state ≠ .SCHED then (job, some .EINVAL)
    else
      match event_priority_context_decode context with
      | none => (job, some .EPROTO)
      | some p => ({ job with priority := p, state := .SCHED }, none)
  | .urgency =>
    match event_urgency_context_decode context with
    | none => (job, some .EPROTO)
    | some u => ({ job with urgency := u }, none)
  | .exception =>
    if job.state = .NEW ∨ job.state = .INACTIVE then (job, some .EINVAL)
    else
      match event_exception_context_decode context with
      | none => (job, some .EPROTO)
      | some severity =>
        if severity = 0 then
          let job :=
            if job.end_event = none then { job with end_event := some event }
            else job
          ({ job with state := .CLEANUP }, none)
        else (job, none)
  | .alloc =>
    if job.state ≠ .SCHED ∧ job.state ≠ .CLEANUP then (job, some .EINVAL)
    else
      let job := { job with has_resources := true }
      if job.state = .SCHED then ({ job with state := .RUN }, none)
      else (job, none)
  | .free =>
    if job.state ≠ .CLEANUP ∨ job.has_resources = false then
      (job, some .EINVAL)
    else ({ job with has_resources := false }, none)
  | .finish =>
    if job.state ≠ .RUN ∧ job.state ≠ .CLEANUP then (job, some .EINVAL)
    else
      if job.state = .RUN then
        let job :=
          if job.end_event = none then { job with end_event := some event }
          else job
        ({ job with state := .CLEANUP }, none)
      else (job, none)
  | .release =>
    if job.state ≠ .RUN ∧ job.state ≠ .CLEANUP then (job, some .EINVAL)
    else
      match event_release_context_decode context with
      | none => (job, some .EPROTO)
      | some final =>
        if final ∧ job.state = .RUN then (job, some .EINVAL)
        else (job, none)
  | .clean =>
    if job.state ≠ .CLEANUP then (job, some .EINVAL)
    else ({ job with state := .INACTIVE }, none)
  | .prolog cmd =>
    if job.start_pending then (job, some .EINVAL)
    else event_handle_perilog job cmd context
  | .epilog cmd =>
    if job.state ≠ .CLEANUP then (job, some .EINVAL)
    else event_handle_perilog job cmd context
  | .restart =>
    if job.state = .SCHED then ({ job with state := .PRIORITY }, none)
    else (job, none)
  | .other => (job, none)

example :
    (event_job_update { state := .SCHED }
      ⟨1, "alloc", .noCtx⟩).1.state = .RUN := by decide

example :
    (event_job_update { state := .NEW }
      ⟨2, "submit", .submitCtx 16 1000 0⟩).1.state = .DEPEND := by decide

example :
    (event_job_update { state := .RUN }
      ⟨3, "free", .noCtx⟩).2 = some .EINVAL := by decide

/-- Modelled from the spec: the `EVENT_NO_COMMIT` flag bit of event.h
(not under src/): do not append to KVS; do not advance sequence. -/
def EVENT_NO_COMMIT : Nat := 1

/-- Modelled from the spec: the `EVENT_FORCE_SEQUENCE` flag bit of
event.h (not under src/): consume a sequence even if `NO_COMMIT`. -/
def EVENT_FORCE_SEQUENCE : Nat := 2

/-- `flux_job_statetostr (state, "L")`: long-form state name. -/
def stateToStr : JobState → String
  | .NEW => "NEW"
  | .DEPEND => "DEPEND"
  | .PRIORITY => "PRIORITY"
  | .SCHED => "SCHED"
  | .RUN => "RUN"
  | .CLEANUP => "CLEANUP"
  | .INACTIVE => "INACTIVE"

/-- `event_index`: insertion-ordered dense ids.  A known name returns
its id; a new name is inserted with id `size + 1`. -/
def event_index (idx : List String) (name : String) : List String × Nat :=
  match idx.indexOf? name with
  | some i => (idx, i + 1)
  | none => (idx ++ [name], idx.length + 1)

/-- `job_event_id_set` (job.c, not under src/): record that the event id
has been observed for the job (a bitmap in the source). -/
def job_event_id_set (ids : List Nat) (id : Nat) : List Nat :=
  if id ∈ ids then ids else ids ++ [id]

/-- The accumulating batch of the post pipeline: the KVS transaction
(list of eventlog appends) and the pending `job-state` transition
records `(jobid, state-name, timestamp)`. -/
structure BatchAcc where
  txn : List EventEntry := []
  stateTrans : List (Nat × String × Int) := []
deriving DecidableEq, Repr

/-- State threaded through the post pipeline: the job, the event index,
the current accumulating batch (`event->batch`, `none` when idle), the
`running_jobs` counter, plus two observation lists: the `(sequence,
name)` arguments handed to the external journal hook, and the names of
the events successfully applied (posted) in order. -/
structure PostSt where
  job : Job := {}
  evindex : List String := []
  batch : Option BatchAcc := none
  runningJobs : Int := 0
  journalCalls : List (Int × String) := []
  posts : List String := []
deriving DecidableEq, Repr

/-- `event_batch_commit_event` as seen from the post pipeline: start a
batch if none, and append the encoded entry to its KVS transaction. -/
def event_batch_commit_event_p (st : PostSt) (entry : EventEntry) : PostSt :=
  let b := st.batch.getD {}
  { st with batch := some { b with txn := b.txn ++ [entry] } }

/-- `event_batch_pub_state`: start a batch if none, and append
`[job->id, statetostr (job->state), timestamp]` to its pending
`job-state` transition list. -/
def event_batch_pub_state_p (st : PostSt) (timestamp : Int) : PostSt :=
  let b := st.batch.getD {}
  { st with batch := some { b with stateTrans :=
      b.stateTrans ++ [(st.job.id, stateToStr st.job.state, timestamp)] } }

/-- The non-recursive part of `event_job_post_entry` (event.c lines
762-820): sequence selection, journal hook, `event_job_update`,
sequence advance, event-id cache, batch append, state publication,
running-jobs counter.  `jOk` is the outcome of the external journal
hook (`journal_process_event`). -/
def core_seq (flags : Nat) (seq : Int) : Int :=
  if flags &&& EVENT_NO_COMMIT ≠ 0 ∧ flags &&& EVENT_FORCE_SEQUENCE = 0
  then -1 else seq

/-- The success path of `event_job_post_entry` after `event_job_update`
returned `j1`: advance the sequence if one was assigned, cache the
event id, append to the batch unless NO_COMMIT, record the state
publication if the state changed, and maintain the running-jobs
counter. -/
def core_apply (st : PostSt) (name : String) (flags : Nat)
    (entry : EventEntry) (old_state : JobState) (seqv : Int) (j1 : Job) :
    PostSt :=
  let job2 := { j1 with
    eventlog_seq :=
      if seqv ≠ -1 then j1.eventlog_seq + 1 else j1.eventlog_seq,
    eventIds := job_event_id_set j1.eventIds (event_index st.evindex name).2 }
  let stA := { st with job := job2,
                       evindex := (event_index st.evindex name).1,
                       posts := st.posts ++ [entry.name] }
  let stB := if flags &&& EVENT_NO_COMMIT = 0 then
      event_batch_commit_event_p stA entry
    else stA
  let stC := if job2.state ≠ old_state then
      event_batch_pub_state_p stB entry.timestamp
    else stB
  if job2.state.isRunningState ∧ ¬ old_state.isRunningState then
    { stC with runningJobs := stC.runningJobs + 1 }
  else if ¬ job2.state.isRunningState ∧ old_state.isRunningState then
    { stC with runningJobs := stC.runningJobs - 1 }
  else stC

/-- The non-recursive part of `event_job_post_entry` (event.c lines
762-820): sequence selection, journal hook, `event_job_update`, then
the success-path effects of `core_apply`.  `jOk` is the outcome of the
external journal hook (`journal_process_event`). -/
def event_job_post_entry_core (jOk : Bool) (st : PostSt) (name : String)
    (flags : Nat) (entry : EventEntry) : PostSt × Option Err :=
  let old_state := st.job.state
  let seqv : Int := core_seq flags st.job.eventlog_seq
  let st1 := { st with journalCalls := st.journalCalls ++ [(seqv, name)] }
  if jOk = false then (st1, some .EEXTERNAL)
  else
    match event_job_update st1.job entry with
    | (j1, some e) => ({ st1 with job := j1 }, some e)
    | (j1, none) =>
      (core_apply st1 name flags entry old_state seqv j1, none)

/-- `event_job_action`, parameterized by the function used to post an
event (`event_job_post_pack` in the source).  Collaborator calls that
do not touch job-manager state (alloc, start, wait, drain) are external
and modelled as successful no-ops. -/
def event_job_action_f
    (post : PostSt → String → Nat → Ctx → Int → PostSt × Option Err)
    (st : PostSt) : PostSt × Option Err :=
  match st.job.state with
  | .NEW => (st, none)
  | .DEPEND =>
    -- post "depend" when no dependency references remain and it has not
    -- already been posted; latch depend_posted after a successful post
    if job_dependency_count st.job = 0 && !st.job.depend_posted then
      match post st "depend" 0 .noCtx 0 with
      | (st1, some e) => (st1, some e)
      | (st1, none) =>
        ({ st1 with job := { st1.job with depend_posted := true } }, none)
    else (st, none)
  | .PRIORITY => (st, none)   -- alloc_dequeue_alloc_request: external
  | .SCHED => (st, none)      -- alloc_enqueue / queue_recalc: external
  | .RUN => (st, none)        -- start_send_request: external
  | .CLEANUP =>
    -- alloc cancel/dequeue and the free request are external; post
    -- "clean" when cleanup is complete
    if !st.job.alloc_queued && !st.job.alloc_pending
        && !st.job.free_pending && !st.job.start_pending
        && !st.job.has_resources then
      post st "clean" 0 .noCtx 0
    else (st, none)
  | .INACTIVE => (st, none)   -- wait/active_jobs/drain: external

/-- Out-of-fuel post function: the artificial bottom of the fuelled
recursion between the action dispatcher and the post pipeline. -/
def noFuelPost (st : PostSt) (_ : String) (_ : Nat) (_ : Ctx) (_ : Int) :
    PostSt × Option Err :=
  (st, some Err.ENOFUEL)

/-- `event_job_post_vpack` in terms of a given `event_job_post_entry`
function: build the entry (timestamp `now`, the wall clock filled in by
`eventlog_entry_vpack`) and refuse any post while the job is in NEW
state (EAGAIN). -/
def fuelPost
    (entryFn : PostSt → String → Nat → EventEntry → PostSt × Option Err)
    (st : PostSt) (name : String) (flags : Nat) (ctx : Ctx) (now : Int) :
    PostSt × Option Err :=
  if st.job.state = .NEW then (st, some Err.EAGAIN)
  else entryFn st name flags ⟨now, name, ctx⟩

/-- `event_job_post_entry` body in terms of a given nested post
function: run the core pipeline, then (the jobtap hook being external)
dispatch the per-state action. -/
def postEntryAux (jOk : Bool)
    (nested : PostSt → String → Nat → Ctx → Int → PostSt × Option Err)
    (st : PostSt) (name : String) (flags : Nat) (entry : EventEntry) :
    PostSt × Option Err :=
  match event_job_post_entry_core jOk st name flags entry with
  | (st1, some e) => (st1, some e)
  | (st1, none) => event_job_action_f nested st1

/-- `event_job_post_entry`: the full pipeline, with recursion through
the per-state action bounded by `fuel` (the source recursion terminates
because the only action-posted events, depend and clean, lead to states
whose actions post nothing; fuel 2 covers every chain). -/
def event_job_post_entry : Nat → Bool → PostSt → String → Nat →
    EventEntry → PostSt × Option Err
  | 0, jOk => postEntryAux jOk noFuelPost
  | f + 1, jOk =>
    postEntryAux jOk
      (fun st n fl c now => fuelPost (event_job_post_entry f jOk) st n fl c now)

/-- `event_job_action` with the same fuelled post function that
`event_job_post_entry` uses. -/
def event_job_action (fuel : Nat) (jOk : Bool) (st : PostSt) :
    PostSt × Option Err :=
  match fuel with
  | 0 => event_job_action_f noFuelPost st
  | f + 1 =>
    event_job_action_f
      (fun st2 n fl c now => fuelPost (event_job_post_entry f jOk) st2 n fl c now)
      st

/-- `event_job_post_vpack`: refuse posts to NEW jobs with EAGAIN, then
run `event_job_post_entry` on the packed entry. -/
def event_job_post_vpack (fuel : Nat) (jOk : Bool) (st : PostSt)
    (name : String) (flags : Nat) (ctx : Ctx) (now : Int) :
    PostSt × Option Err :=
  fuelPost (event_job_post_entry fuel jOk) st name flags ctx now

/-- `event_job_post_pack`: va_list wrapper over `event_job_post_vpack`. -/
def event_job_post_pack (fuel : Nat) (jOk : Bool) (st : PostSt)
    (name : String) (flags : Nat) (ctx : Ctx) (now : Int) :
    PostSt × Option Err :=
  event_job_post_vpack fuel jOk st name flags ctx now

/-- One externally requested event post: name, flags, context,
timestamp. -/
structure PCmd where
  name : String
  flags : Nat := 0
  ctx : Ctx := .noCtx
  now : Int := 0
deriving DecidableEq, Repr

/-- Drive a sequence of external posts through
`event_job_post_vpack`, continuing past per-post errors. -/
def runPosts (fuel : Nat) (jOk : Bool) : PostSt → List PCmd → PostSt
  | st, [] => st
  | st, c :: rest =>
    runPosts fuel jOk
      (event_job_post_vpack fuel jOk st c.name c.flags c.ctx c.now).1 rest



example :
    (event_job_post_entry 2 true { job := { } } "submit" 0
      ⟨2, "submit", .submitCtx 16 0 0⟩).1.job.state = .PRIORITY ∧
    (event_job_post_entry 2 true { job := { } } "submit" 0
      ⟨2, "submit", .submitCtx 16 0 0⟩).1.posts = ["submit", "depend"] := by
  constructor <;>
    simp [event_job_post_entry, postEntryAux, event_job_post_entry_core,
      core_apply, core_seq, event_job_update, classify, strLeads, strAfter,
      event_submit_context_decode, event_index, job_event_id_set,
      event_batch_commit_event_p, event_batch_pub_state_p,
      event_job_action_f, job_dependency_count, fuelPost, noFuelPost,
      JobState.isRunningState, EVENT_NO_COMMIT, EVENT_FORCE_SEQUENCE,
      stateToStr]

/-- A batch engine batch (`struct event_batch`): its identity, the KVS
transaction of encoded eventlog appends (`txn`, nonempty exactly when
the C `txn` pointer is non-NULL), the pending `job-state` transition
records, and the deferred response messages. -/
structure BatchData where
  bid : Nat
  txn : List String := []
  stateTrans : List (Nat × String × Int) := []
  responses : List Nat := []
deriving DecidableEq, Repr

/-- Observable actions of the batch engine, in the order they are
performed: a KVS commit is issued for a batch; a commit future resolves
(with success flag); a `job-state` event carrying the accumulated
transitions is published (`event_publish`); a deferred response message
is sent (`flux_send`); the reactor is stopped with error
(`flux_reactor_stop_error`). -/
inductive BAct
  | commitStart (bid : Nat)
  | commitResolved (bid : Nat) (ok : Bool)
  | publish (bid : Nat) (trans : List (Nat × String × Int))
  | send (bid : Nat) (msg : Nat)
  | stopError
deriving DecidableEq, Repr

/-- Batch engine state: the accumulating batch (`event->batch`), the
FIFO of batches whose commits are in flight (`event->pending`), a fresh
batch id counter, and the trace of observable actions so far. -/
structure BSys where
  batch : Option BatchData := none
  pending : List BatchData := []
  nextBid : Nat := 0
  trace : List BAct := []
deriving DecidableEq, Repr

/-- `event_batch_start`: create a new batch if none is accumulating
(and arm the 10 ms timer, which the command stream models). -/
def event_batch_start (s : BSys) : BSys :=
  match s.batch with
  | some _ => s
  | none => { s with batch := some { bid := s.nextBid },
                     nextBid := s.nextBid + 1 }

/-- `event_batch_commit_event`: start a batch if needed and append the
encoded entry to its KVS transaction. -/
def event_batch_commit_event (s : BSys) (entry : String) : BSys :=
  let s := event_batch_start s
  match s.batch with
  | none => s
  | some b => { s with batch := some { b with txn := b.txn ++ [entry] } }

/-- `event_batch_pub_state`: start a batch if needed and append a
`[id, state, timestamp]` record to its pending transition list. -/
def event_batch_pub_state (s : BSys) (t : Nat × String × Int) : BSys :=
  let s := event_batch_start s
  match s.batch with
  | none => s
  | some b =>
    { s with batch := some { b with stateTrans := b.stateTrans ++ [t] } }

/-- `event_batch_respond`: start a batch if needed and enqueue a reply
message to be sent when the batch completes. -/
def event_batch_respond (s : BSys) (m : Nat) : BSys :=
  let s := event_batch_start s
  match s.batch with
  | none => s
  | some b =>
    { s with batch := some { b with responses := b.responses ++ [m] } }

/-- The actions `event_batch_destroy` performs, in source order: publish
the accumulated `job-state` transitions if any, then send each deferred
response.  (The preceding `flux_future_wait_for` of the source is
reflected by every caller emitting the batch's resolution first.) -/
def event_batch_destroy_acts (b : BatchData) : List BAct :=
  (if b.stateTrans ≠ [] then [BAct.publish b.bid b.stateTrans] else [])
    ++ b.responses.map (fun m => BAct.send b.bid m)

/-- `event_batch_commit`: close the accumulating batch.  With at least
one KVS append, issue the commit and move the batch to the pending
FIFO; with none, destroy the batch immediately (publish and respond
without any KVS commit). -/
def event_batch_commit (s : BSys) : BSys :=
  match s.batch with
  | none => s
  | some b =>
    if b.txn ≠ [] then
      { s with batch := none, pending := s.pending ++ [b],
               trace := s.trace ++ [BAct.commitStart b.bid] }
    else
      { s with batch := none,
               trace := s.trace ++ event_batch_destroy_acts b }

/-- `commit_continuation`: the commit future of the i-th pending batch
resolves.  On error, log and stop the reactor with error; either way,
remove the batch from the pending list and destroy it (which publishes
its transitions and sends its responses). -/
def commit_continuation (s : BSys) (i : Nat) (ok : Bool) : BSys :=
  match s.pending.get? i with
  | none => s
  | some b =>
    { s with pending := s.pending.eraseIdx i,
             trace := s.trace ++ [BAct.commitResolved b.bid ok]
                      ++ (if ok then [] else [BAct.stopError])
                      ++ event_batch_destroy_acts b }

/-- The actions of draining the pending FIFO during `event_ctx_destroy`:
each batch's destroy first waits synchronously for its commit future
(`flux_future_wait_for`), so its resolution (with outcome taken from
`oks`) precedes its destroy actions. -/
def drainActs : List BatchData → List Bool → List BAct
  | [], _ => []
  | b :: rest, oks =>
    [BAct.commitResolved b.bid (oks.headD true)]
      ++ event_batch_destroy_acts b
      ++ drainActs rest oks.tail
/-- `event_ctx_destroy`: commit the accumulating batch, then destroy
every pending batch in FIFO order, waiting for each commit future. -/
def event_ctx_destroy_flush (s : BSys) (oks : List Bool) : BSys :=
  let s := event_batch_commit s
  { s with pending := [],
           trace := s.trace ++ drainActs s.pending oks }

/-- External stimuli of the batch engine: accumulate an append, a
transition record, or a deferred reply; the batch timer fires; the
commit future of the i-th pending batch resolves with outcome `ok`;
the job manager shuts down (with the commit outcomes of the remaining
in-flight batches). -/
inductive BCmd
  | append (entry : String)
  | pubState (t : Nat × String × Int)
  | respond (m : Nat)
  | timerFire
  | resolve (i : Nat) (ok : Bool)
  | shutdown (oks : List Bool)
deriving DecidableEq, Repr

/-- One batch engine step. -/
def bstep (s : BSys) : BCmd → BSys
  | .append e => event_batch_commit_event s e
  | .pubState t => event_batch_pub_state s t
  | .respond m => event_batch_respond s m
  | .timerFire => event_batch_commit s
  | .resolve i ok => commit_continuation s i ok
  | .shutdown oks => event_ctx_destroy_flush s oks

/-- Run the batch engine from the idle initial state. -/
def brun (cmds : List BCmd) : BSys := cmds.foldl bstep {}

/-- Does an action carry the given batch id? -/
def hasBid (bid : Nat) : BAct → Bool
  | .commitStart b => b = bid
  | .commitResolved b _ => b = bid
  | .publish b _ => b = bid
  | .send b _ => b = bid
  | .stopError => false

/-- Is this the commit issue of the given batch? -/
def isStart (bid : Nat) : BAct → Bool
  | .commitStart b => b = bid
  | _ => false

example :
    (brun [.append "e", .pubState (1, "RUN", 5), .timerFire,
           .resolve 0 true]).trace =
      [.commitStart 0, .commitResolved 0 true,
       .publish 0 [(1, "RUN", 5)]] := by decide

example :
    (brun [.append "e", .pubState (1, "RUN", 5), .respond 7, .timerFire,
           .resolve 0 false]).trace =
      [.commitStart 0, .commitResolved 0 false, .stopError,
       .publish 0 [(1, "RUN", 5)], .send 0 7] := by decide

example :
    (brun [.pubState (1, "RUN", 5), .timerFire]).trace =
      [.publish 0 [(1, "RUN", 5)]] := by decide

lemma classify_submit : classify "submit" = .submit := by decide

lemma classify_depend : classify "depend" = .depend := by decide

lemma classify_alloc : classify "alloc" = .alloc := by decide

lemma classify_free : classify "free" = .free := by decide

lemma classify_finish : classify "finish" = .finish := by decide

lemma classify_exception : classify "exception" = .exception := by decide

lemma classify_clean : classify "clean" = .clean := by decide

lemma classify_restart : classify "flux-restart" = .restart := by decide

lemma classify_prolog_start : classify "prolog-start" = .prolog "start" := by
  decide

lemma classify_prolog_finish : classify "prolog-finish" = .prolog "finish" := by
  decide

lemma classify_epilog_start : classify "epilog-start" = .epilog "start" := by
  decide

lemma classify_epilog_finish : classify "epilog-finish" = .epilog "finish" := by
  decide

lemma classify_dependency_add :
    classify "dependency-add" = .dependency "add" := by decide

lemma classify_dependency_remove :
    classify "dependency-remove" = .dependency "remove" := by decide

lemma event_handle_dependency_shape (job : Job) (cmd : String) (ctx : Ctx) :
    ∃ d, (event_handle_dependency job cmd ctx).1 =
      { job with dependencies := d } := by
  rcases ctx <;>
    simp only [event_handle_dependency, job_dependency_add,
      job_dependency_remove] <;>
    first
      | exact ⟨job.dependencies, rfl⟩
      | (split_ifs <;>
          first
            | exact ⟨job.dependencies, rfl⟩
            | exact ⟨_, rfl⟩)

lemma event_handle_perilog_shape (job : Job) (cmd : String) (ctx : Ctx) :
    ∃ pa, (event_handle_perilog job cmd ctx).1 =
      { job with perilog_active := pa } := by
  unfold event_handle_perilog
  split_ifs <;> exact ⟨_, rfl⟩

lemma job_flag_set_shape (job : Job) (n : String) :
    ∃ fl, (job_flag_set job n).1 = { job with flags := fl } := by
  unfold job_flag_set
  split_ifs <;> exact ⟨_, rfl⟩

lemma event_handle_set_flags_shape (job : Job) (ctx : Ctx) :
    ∃ fl, (event_handle_set_flags job ctx).1 = { job with flags := fl } := by
  rcases ctx with _ | _ | _ | _ | _ | _ | names | _ <;>
    try exact ⟨job.flags, rfl⟩
  show ∃ fl, (names.foldl _ (job, none)).1 = _
  have H : ∀ (ns : List String) (acc : Job × Option Err),
      (∃ fl, acc.1 = { job with flags := fl }) →
      ∃ fl, (ns.foldl
        (fun acc n =>
          match acc with
          | (j, some e) => (j, some e)
          | (j, none) =>
            match job_flag_set j n with
            | (j2, some _) => (j2, some .EPROTO)
            | (j2, none) => (j2, none))
        acc).1 = { job with flags := fl } := by
    intro ns
    induction ns with
    | nil => intro acc h; exact h
    | cons n rest ih =>
      intro acc h
      rcases acc with ⟨j, e⟩
      rcases h with ⟨fl, hfl⟩
      simp only at hfl
      simp only [List.foldl_cons]
      rcases e with _ | e
      · rcases hset : job_flag_set j n with ⟨j2, e2⟩
        have hfl2 := job_flag_set_shape j n
        rw [hset] at hfl2
        rcases hfl2 with ⟨fl2, hfl2⟩
        simp only at hfl2
        simp only [hset]
        rcases e2 with _ | e2
        · refine ih (j2, none) ⟨fl2, ?_⟩
          simp only
          rw [hfl2, hfl]
        · refine ih (j2, some .EPROTO) ⟨fl2, ?_⟩
          simp only
          rw [hfl2, hfl]
      · exact ih (j, some e) ⟨fl, hfl⟩
  exact H names (job, none) ⟨job.flags, rfl⟩

lemma event_handle_perilog_le (job : Job) (cmd : String) (ctx : Ctx)
    (h : job.perilog_active ≤ UINT8_MAX) :
    ((event_handle_perilog job cmd ctx).1).perilog_active ≤ UINT8_MAX := by
  unfold event_handle_perilog UINT8_MAX at *
  split_ifs <;> simp_all <;> omega

lemma update_master (job : Job) (e : EventEntry) :
    ((event_job_update job e).1).eventlog_seq = job.eventlog_seq ∧
    (∀ e0, job.end_event = some e0 →
      ((event_job_update job e).1).end_event = some e0) ∧
    ((job.state ≠ .NEW ∧ job.state ≠ .DEPEND) →
      (((event_job_update job e).1).state ≠ .NEW ∧
       ((event_job_update job e).1).state ≠ .DEPEND)) ∧
    (∀ err, (event_job_update job e).2 = some err →
      ((event_job_update job e).1).state = job.state) ∧
    (job.perilog_active ≤ UINT8_MAX →
      ((event_job_update job e).1).perilog_active ≤ UINT8_MAX) := by
  simp only [event_job_update]
  rcases hc : classify e.name with
    _ | cmd | _ | _ | _ | _ | _ | _ | _ | _ | _ | _ | _ | cmd | cmd | _ | _ <;>
    simp only
  case submit =>
    split_ifs with h1
    · simp
    · rcases hd : event_submit_context_decode e.context with _ | ⟨u, uid, f⟩ <;>
        simp_all
  case dependency =>
    split_ifs with h1
    · simp
    · rcases hsh : event_handle_dependency job cmd e.context with ⟨j2, e2⟩
      have := event_handle_dependency_shape job cmd e.context
      rw [hsh] at this
      rcases this with ⟨d, hd⟩
      simp only at hd
      subst hd
      simp_all
  case setflags =>
    rcases hsh : event_handle_set_flags job e.context with ⟨j2, e2⟩
    have := event_handle_set_flags_shape job e.context
    rw [hsh] at this
    rcases this with ⟨fl, hd⟩
    simp only at hd
    subst hd
    simp_all
  case memo => simp [event_handle_memo]
  case depend =>
    split_ifs with h1 <;> simp_all
  case priority =>
    split_ifs with h1
    · simp
    · rcases hd : event_priority_context_decode e.context with _ | p <;> simp_all
  case urgency =>
    rcases hd : event_urgency_context_decode e.context with _ | u <;> simp_all
  case exception =>
    rcases hd : event_exception_context_decode e.context with _ | sev <;>
      simp only [hd] <;> split_ifs <;> simp_all
  case alloc =>
    split_ifs with h1 h2 <;> simp_all
  case free =>
    split_ifs with h1 <;> simp_all
  case finish =>
    split_ifs <;> simp_all
  case release =>
    split_ifs with h1
    · simp
    · rcases hd : event_release_context_decode e.context with _ | fin
      · simp_all
      · simp only [hd]
        split_ifs with h2 <;> simp_all
  case clean =>
    split_ifs with h1 <;> simp_all
  case prolog =>
    split_ifs with h1
    · simp
    · rcases hsh : event_handle_perilog job cmd e.context with ⟨j2, e2⟩
      have hle := event_handle_perilog_le job cmd e.context
      rw [hsh] at hle
      have := event_handle_perilog_shape job cmd e.context
      rw [hsh] at this
      rcases this with ⟨pa, hd⟩
      simp only at hd hle
      subst hd
      simp_all
  case epilog =>
    split_ifs with h1
    · simp
    · rcases hsh : event_handle_perilog job cmd e.context with ⟨j2, e2⟩
      have hle := event_handle_perilog_le job cmd e.context
      rw [hsh] at hle
      have := event_handle_perilog_shape job cmd e.context
      rw [hsh] at this
      rcases this with ⟨pa, hd⟩
      simp only at hd hle
      subst hd
      simp_all
  case restart =>
    split_ifs with h1 <;> simp_all
  case other => simp

/-- C9: for every job not in SCHED state, a "flux-restart" event is
silently accepted by event_job_update (success, job unchanged) rather
than failing with InvalidTransition; only from SCHED does it transition
the job to PRIORITY. -/
theorem c9_flux_restart_silently_accepted (job : Job) (ts : Int) (ctx : Ctx) :
    (job.state ≠ .SCHED →
      event_job_update job ⟨ts, "flux-restart", ctx⟩ = (job, none)) ∧
    (job.state = .SCHED →
      event_job_update job ⟨ts, "flux-restart", ctx⟩ =
        ({ job with state := .PRIORITY }, none)) := by
  constructor <;> intro h <;>
    simp [event_job_update, classify_restart, h]

theorem c9_witness :
    event_job_update { state := .RUN } ⟨0, "flux-restart", .noCtx⟩ =
      ({ state := .RUN }, none) :=
  (c9_flux_restart_silently_accepted { state := .RUN } 0 .noCtx).1 (by decide)

/-- C6: an "alloc" event is accepted only in SCHED or CLEANUP, sets
has_resources and moves SCHED to RUN (CLEANUP unchanged); a "free"
event is accepted only in CLEANUP with has_resources, clearing it; any
other state (or free without resources) fails with EINVAL leaving the
job unchanged. -/
theorem c6_alloc_free_transitions (job : Job) (ts : Int) (ctx : Ctx) :
    (job.state ≠ .SCHED → job.state ≠ .CLEANUP →
      event_job_update job ⟨ts, "alloc", ctx⟩ = (job, some .EINVAL)) ∧
    (job.state = .SCHED →
      event_job_update job ⟨ts, "alloc", ctx⟩ =
        ({ job with has_resources := true, state := .RUN }, none)) ∧
    (job.state = .CLEANUP →
      event_job_update job ⟨ts, "alloc", ctx⟩ =
        ({ job with has_resources := true }, none)) ∧
    ((job.state ≠ .CLEANUP ∨ job.has_resources = false) →
      event_job_update job ⟨ts, "free", ctx⟩ = (job, some .EINVAL)) ∧
    (job.state = .CLEANUP → job.has_resources = true →
      event_job_update job ⟨ts, "free", ctx⟩ =
        ({ job with has_resources := false }, none)) := by
  refine ⟨?_, ?_, ?_, ?_, ?_⟩
  · intro h1 h2
    simp [event_job_update, classify_alloc, h1, h2]
  · intro h
    simp [event_job_update, classify_alloc, h]
  · intro h
    simp [event_job_update, classify_alloc, h]
  · intro h
    rcases h with h | h <;> simp [event_job_update, classify_free, h]
  · intro h1 h2
    simp [event_job_update, classify_free, h1, h2]

theorem c6_witness :
    event_job_update { state := .SCHED } ⟨3, "alloc", .noCtx⟩ =
      ({ state := .RUN, has_resources := true }, none) ∧
    event_job_update { state := .RUN } ⟨4, "free", .noCtx⟩ =
      ({ state := .RUN }, some .EINVAL) :=
  ⟨(c6_alloc_free_transitions { state := .SCHED } 3 .noCtx).2.1 rfl,
   (c6_alloc_free_transitions { state := .RUN } 4 .noCtx).2.2.2.1
     (Or.inl (by decide))⟩

/-- C8: perilog_active never exceeds UINT8_MAX (a prolog-start at the
maximum fails with EOVERFLOW instead of wrapping) and a finish never
decrements below 0 (finish at 0 succeeds leaving the job unchanged);
prolog events require start_pending to be clear, epilog events require
CLEANUP state. -/
theorem c8_perilog_bounds (job : Job) (ts : Int) (ctx : Ctx) :
    (∀ e : EventEntry, job.perilog_active ≤ UINT8_MAX →
      ((event_job_update job e).1).perilog_active ≤ UINT8_MAX) ∧
    (job.start_pending = false → job.perilog_active = UINT8_MAX →
      event_job_update job ⟨ts, "prolog-start", ctx⟩ =
        (job, some .EOVERFLOW)) ∧
    (job.start_pending = false → job.perilog_active = 0 →
      event_job_update job ⟨ts, "prolog-finish", ctx⟩ = (job, none)) ∧
    (job.start_pending = true →
      event_job_update job ⟨ts, "prolog-start", ctx⟩ = (job, some .EINVAL) ∧
      event_job_update job ⟨ts, "prolog-finish", ctx⟩ = (job, some .EINVAL)) ∧
    (job.state ≠ .CLEANUP →
      event_job_update job ⟨ts, "epilog-start", ctx⟩ = (job, some .EINVAL) ∧
      event_job_update job ⟨ts, "epilog-finish", ctx⟩ =
        (job, some .EINVAL)) := by
  refine ⟨fun e h => (update_master job e).2.2.2.2 h, ?_, ?_, ?_, ?_⟩
  · intro h1 h2
    simp [event_job_update, classify_prolog_start, event_handle_perilog,
      h1, h2]
  · intro h1 h2
    simp [event_job_update, classify_prolog_finish, event_handle_perilog,
      h1, h2]
  · intro h1
    constructor <;>
      simp [event_job_update, classify_prolog_start, classify_prolog_finish,
        h1]
  · intro h1
    constructor <;>
      simp [event_job_update, classify_epilog_start, classify_epilog_finish,
        h1]

theorem c8_witness :
    event_job_update { perilog_active := 255 } ⟨0, "prolog-start", .noCtx⟩ =
      ({ perilog_active := 255 }, some .EOVERFLOW) ∧
    event_job_update { state := .RUN } ⟨0, "prolog-finish", .noCtx⟩ =
      ({ state := .RUN }, none) :=
  ⟨(c8_perilog_bounds { perilog_active := 255 } 0 .noCtx).2.1 rfl rfl,
   (c8_perilog_bounds { state := .RUN } 0 .noCtx).2.2.1 rfl rfl⟩

/-- C4: end_event is set at most once: the first terminal event (fatal
exception, or finish while in RUN) is recorded, and once set, no later
event (in particular no later terminal event) overwrites it. -/
theorem c4_end_event_latch (job : Job) :
    (∀ e0 e, job.end_event = some e0 →
      ((event_job_update job e).1).end_event = some e0) ∧
    (∀ ts : Int, job.end_event = none → job.state ≠ .NEW →
      job.state ≠ .INACTIVE →
      event_job_update job ⟨ts, "exception", .exceptionCtx 0⟩ =
        ({ job with end_event := some ⟨ts, "exception", .exceptionCtx 0⟩,
                    state := .CLEANUP }, none)) ∧
    (∀ ts ctx, job.end_event = none → job.state = .RUN →
      event_job_update job ⟨ts, "finish", ctx⟩ =
        ({ job with end_event := some ⟨ts, "finish", ctx⟩,
                    state := .CLEANUP }, none)) := by
  refine ⟨fun e0 e h => (update_master job e).2.1 e0 h, ?_, ?_⟩
  · intro ts h1 h2 h3
    simp [event_job_update, classify_exception,
      event_exception_context_decode, h1, h2, h3]
  · intro ts ctx h1 h2
    simp [event_job_update, classify_finish, h1, h2]

theorem c4_witness :
    ((event_job_update
        { state := .CLEANUP,
          end_event := some ⟨1, "exception", .exceptionCtx 0⟩ }
        ⟨2, "finish", .noCtx⟩).1).end_event =
      some ⟨1, "exception", .exceptionCtx 0⟩ :=
  (c4_end_event_latch _).1 _ ⟨2, "finish", .noCtx⟩ rfl

/-- C3 counterexample: posting "submit" through event_job_post_vpack to
a job in NEW state is NOT accepted; it fails with EAGAIN like any other
event name, leaving the state unchanged. -/
theorem c3_counterexample :
    event_job_post_vpack 2 true { job := { } } "submit" 0
      (.submitCtx 16 0 0) 2 = ({ job := { } }, some .EAGAIN) := by
  simp [event_job_post_vpack, fuelPost]

/-- C3 amended: event_job_post_vpack fails with EAGAIN for every event
name (including "submit") while the job is in NEW state; the
NEW-to-DEPEND submit transition itself is performed by
event_job_update (reached via event_job_post_entry, which has no NEW
guard). -/
theorem c3_amended (fuel : Nat) (jOk : Bool) (st : PostSt) (name : String)
    (flags : Nat) (ctx : Ctx) (now : Int) :
    (st.job.state = .NEW →
      event_job_post_vpack fuel jOk st name flags ctx now =
        (st, some .EAGAIN)) ∧
    (∀ (job : Job) (ts u : Int) (uid f : Nat), job.state = .NEW →
      event_job_update job ⟨ts, "submit", .submitCtx u uid f⟩ =
        ({ job with t_submit := ts, urgency := u, userid := uid,
                    flags := f, state := .DEPEND }, none)) := by
  constructor
  · intro h
    simp [event_job_post_vpack, fuelPost, h]
  · intro job ts u uid f h
    simp [event_job_update, classify_submit, event_submit_context_decode, h]

theorem c3_witness :
    event_job_post_vpack 1 true { job := { } } "urgency" 0 (.urgencyCtx 1) 0 =
      ({ job := { } }, some .EAGAIN) ∧
    event_job_update { } ⟨2, "submit", .submitCtx 16 1000 0⟩ =
      ({ t_submit := 2, urgency := 16, userid := 1000, flags := 0,
         state := .DEPEND }, none) :=
  ⟨(c3_amended 1 true { job := { } } "urgency" 0 (.urgencyCtx 1) 0).1 rfl,
   (c3_amended 1 true { job := { } } "urgency" 0 (.urgencyCtx 1) 0).2
     { } 2 16 1000 0 rfl⟩

/-- C10: when the journal hook (journal_process_event) fails, the call
returns an error before the state machine is applied: the job, the
current batch, the running counter, the event index and the posted-event
record are all unchanged. -/
theorem c10_journal_failure_no_effect (fuel : Nat) (st : PostSt)
    (name : String) (flags : Nat) (entry : EventEntry) :
    (event_job_post_entry fuel false st name flags entry).2 =
      some .EEXTERNAL ∧
    (event_job_post_entry fuel false st name flags entry).1.job = st.job ∧
    (event_job_post_entry fuel false st name flags entry).1.batch =
      st.batch ∧
    (event_job_post_entry fuel false st name flags entry).1.runningJobs =
      st.runningJobs ∧
    (event_job_post_entry fuel false st name flags entry).1.evindex =
      st.evindex ∧
    (event_job_post_entry fuel false st name flags entry).1.posts =
      st.posts := by
  cases fuel <;>
    simp [event_job_post_entry, postEntryAux, event_job_post_entry_core,
      core_seq]

/-- C5 counterexample: a single successful event_job_post_entry call
without NO_COMMIT can advance eventlog_seq by two, because the
per-state action posts a further event: "free" in CLEANUP (with no
outstanding flags) triggers the "clean" post, taking the sequence from
5 to 7. -/
theorem c5_counterexample :
    (event_job_post_entry 2 true
      { job := { state := .CLEANUP, has_resources := true,
                 eventlog_seq := 5 } }
      "free" 0 ⟨9, "free", .noCtx⟩).2 = none ∧
    (event_job_post_entry 2 true
      { job := { state := .CLEANUP, has_resources := true,
                 eventlog_seq := 5 } }
      "free" 0 ⟨9, "free", .noCtx⟩).1.job.eventlog_seq = 7 := by
  constructor <;>
    simp [event_job_post_entry, postEntryAux, event_job_post_entry_core,
      core_apply, core_seq, event_job_update, classify, strLeads, strAfter, event_index,
      job_event_id_set, event_batch_commit_event_p, event_batch_pub_state_p,
      event_job_action_f, job_dependency_count, fuelPost, noFuelPost,
      JobState.isRunningState, EVENT_NO_COMMIT, EVENT_FORCE_SEQUENCE,
      stateToStr]

@[simp] lemma commit_event_p_job (st : PostSt) (e : EventEntry) :
    (event_batch_commit_event_p st e).job = st.job := rfl

@[simp] lemma commit_event_p_journal (st : PostSt) (e : EventEntry) :
    (event_batch_commit_event_p st e).journalCalls = st.journalCalls := rfl

@[simp] lemma commit_event_p_posts (st : PostSt) (e : EventEntry) :
    (event_batch_commit_event_p st e).posts = st.posts := rfl

@[simp] lemma commit_event_p_evindex (st : PostSt) (e : EventEntry) :
    (event_batch_commit_event_p st e).evindex = st.evindex := rfl

@[simp] lemma commit_event_p_running (st : PostSt) (e : EventEntry) :
    (event_batch_commit_event_p st e).runningJobs = st.runningJobs := rfl

@[simp] lemma pub_state_p_job (st : PostSt) (ts : Int) :
    (event_batch_pub_state_p st ts).job = st.job := rfl

@[simp] lemma pub_state_p_journal (st : PostSt) (ts : Int) :
    (event_batch_pub_state_p st ts).journalCalls = st.journalCalls := rfl

@[simp] lemma pub_state_p_posts (st : PostSt) (ts : Int) :
    (event_batch_pub_state_p st ts).posts = st.posts := rfl

@[simp] lemma pub_state_p_evindex (st : PostSt) (ts : Int) :
    (event_batch_pub_state_p st ts).evindex = st.evindex := rfl

@[simp] lemma pub_state_p_running (st : PostSt) (ts : Int) :
    (event_batch_pub_state_p st ts).runningJobs = st.runningJobs := rfl


@[simp] lemma core_apply_job_seq (st : PostSt) (name : String) (flags : Nat)
    (entry : EventEntry) (old_state : JobState) (seqv : Int) (j1 : Job) :
    (core_apply st name flags entry old_state seqv j1).job.eventlog_seq =
      if seqv ≠ -1 then j1.eventlog_seq + 1 else j1.eventlog_seq := by
  simp only [core_apply]
  split_ifs <;> rfl

@[simp] lemma core_apply_journal (st : PostSt) (name : String) (flags : Nat)
    (entry : EventEntry) (old_state : JobState) (seqv : Int) (j1 : Job) :
    (core_apply st name flags entry old_state seqv j1).journalCalls =
      st.journalCalls := by
  simp only [core_apply]
  split_ifs <;> rfl

@[simp] lemma core_apply_posts (st : PostSt) (name : String) (flags : Nat)
    (entry : EventEntry) (old_state : JobState) (seqv : Int) (j1 : Job) :
    (core_apply st name flags entry old_state seqv j1).posts =
      st.posts ++ [entry.name] := by
  simp only [core_apply]
  split_ifs <;> rfl

@[simp] lemma core_apply_job_state (st : PostSt) (name : String) (flags : Nat)
    (entry : EventEntry) (old_state : JobState) (seqv : Int) (j1 : Job) :
    (core_apply st name flags entry old_state seqv j1).job.state =
      j1.state := by
  simp only [core_apply]
  split_ifs <;> rfl

@[simp] lemma core_apply_job_dependencies (st : PostSt) (name : String)
    (flags : Nat) (entry : EventEntry) (old_state : JobState) (seqv : Int)
    (j1 : Job) :
    (core_apply st name flags entry old_state seqv j1).job.dependencies =
      j1.dependencies := by
  simp only [core_apply]
  split_ifs <;> rfl

@[simp] lemma core_apply_job_depend_posted (st : PostSt) (name : String)
    (flags : Nat) (entry : EventEntry) (old_state : JobState) (seqv : Int)
    (j1 : Job) :
    (core_apply st name flags entry old_state seqv j1).job.depend_posted =
      j1.depend_posted := by
  simp only [core_apply]
  split_ifs <;> rfl

lemma core_eq_nojournal (st : PostSt) (name : String) (flags : Nat)
    (entry : EventEntry) :
    event_job_post_entry_core false st name flags entry =
      ({ st with journalCalls := st.journalCalls ++
          [(core_seq flags st.job.eventlog_seq, name)] },
       some .EEXTERNAL) := rfl

lemma core_eq_err (st : PostSt) (name : String) (flags : Nat)
    (entry : EventEntry) (j1 : Job) (err : Err)
    (hu : event_job_update st.job entry = (j1, some err)) :
    event_job_post_entry_core true st name flags entry =
      ({ st with journalCalls := st.journalCalls ++
          [(core_seq flags st.job.eventlog_seq, name)], job := j1 },
       some err) := by
  have : ({ st with journalCalls := st.journalCalls ++
      [(core_seq flags st.job.eventlog_seq, name)] } : PostSt).job
      = st.job := rfl
  simp only [event_job_post_entry_core, this, hu, reduceCtorEq, reduceIte]

lemma core_eq_success (st : PostSt) (name : String) (flags : Nat)
    (entry : EventEntry) (j1 : Job)
    (hu : event_job_update st.job entry = (j1, none)) :
    event_job_post_entry_core true st name flags entry =
      (core_apply
        { st with journalCalls := st.journalCalls ++
            [(core_seq flags st.job.eventlog_seq, name)] }
        name flags entry st.job.state (core_seq flags st.job.eventlog_seq)
        j1,
       none) := by
  have : ({ st with journalCalls := st.journalCalls ++
      [(core_seq flags st.job.eventlog_seq, name)] } : PostSt).job
      = st.job := rfl
  simp only [event_job_post_entry_core, this, hu, reduceCtorEq, reduceIte]

/-- C5 amended: each successfully applied event advances eventlog_seq
by exactly one and hands the previous sequence to the journal hook,
unless posted with NO_COMMIT and without FORCE_SEQUENCE, in which case
the sequence is not advanced and the journal receives -1 (with
NO_COMMIT + FORCE_SEQUENCE a sequence is assigned and advanced); a full
event_job_post_entry call can advance the sequence further only through
the per-state action posting additional events. -/
theorem c5_amended (jOk : Bool) (st : PostSt) (name : String) (flags : Nat)
    (entry : EventEntry)
    (hok : (event_job_post_entry_core jOk st name flags entry).2 = none) :
    ((flags &&& EVENT_NO_COMMIT ≠ 0 ∧ flags &&& EVENT_FORCE_SEQUENCE = 0) →
      (event_job_post_entry_core jOk st name flags entry).1.job.eventlog_seq
        = st.job.eventlog_seq ∧
      (event_job_post_entry_core jOk st name flags entry).1.journalCalls
        = st.journalCalls ++ [(-1, name)]) ∧
    (¬ (flags &&& EVENT_NO_COMMIT ≠ 0 ∧ flags &&& EVENT_FORCE_SEQUENCE = 0) →
      st.job.eventlog_seq ≠ -1 →
      (event_job_post_entry_core jOk st name flags entry).1.job.eventlog_seq
        = st.job.eventlog_seq + 1 ∧
      (event_job_post_entry_core jOk st name flags entry).1.journalCalls
        = st.journalCalls ++ [(st.job.eventlog_seq, name)]) := by
  cases jOk with
  | false => rw [core_eq_nojournal] at hok; simp at hok
  | true =>
    rcases hu : event_job_update st.job entry with ⟨j1, e1⟩
    rcases e1 with _ | err
    · have hseq : j1.eventlog_seq = st.job.eventlog_seq := by
        have h := (update_master st.job entry).1
        rw [hu] at h
        exact h
      rw [core_eq_success st name flags entry j1 hu]
      constructor
      · intro hcond
        have hsv : core_seq flags st.job.eventlog_seq = -1 := by
          simp [core_seq, hcond]
        simp [hsv, hseq]
      · intro hcond hne
        have hsv : core_seq flags st.job.eventlog_seq =
            st.job.eventlog_seq := by
          simp [core_seq, hcond]
        simp [hsv, hseq, hne]
    · rw [core_eq_err st name flags entry j1 err hu] at hok
      simp at hok

theorem c5_witness :
    (event_job_post_entry_core true
      { job := { state := .DEPEND, eventlog_seq := 3 } } "urgency"
      (EVENT_NO_COMMIT ||| EVENT_FORCE_SEQUENCE)
      ⟨1, "urgency", .urgencyCtx 7⟩).1.job.eventlog_seq = 4 ∧
    (event_job_post_entry_core true
      { job := { state := .DEPEND, eventlog_seq := 3 } } "urgency"
      (EVENT_NO_COMMIT ||| EVENT_FORCE_SEQUENCE)
      ⟨1, "urgency", .urgencyCtx 7⟩).1.journalCalls = [(3, "urgency")] :=
  (c5_amended true
    { job := { state := .DEPEND, eventlog_seq := 3 } } "urgency"
    (EVENT_NO_COMMIT ||| EVENT_FORCE_SEQUENCE)
    ⟨1, "urgency", .urgencyCtx 7⟩
    (by simp [event_job_post_entry_core, core_seq, core_apply,
      event_job_update, classify, strLeads, strAfter,
      event_urgency_context_decode, EVENT_NO_COMMIT,
      EVENT_FORCE_SEQUENCE])).2
    (by decide) (by decide)

lemma action_f_noop
    (post : PostSt → String → Nat → Ctx → Int → PostSt × Option Err)
    (st : PostSt)
    (h : st.job.state = .NEW ∨ st.job.state = .PRIORITY ∨
         st.job.state = .SCHED ∨ st.job.state = .RUN ∨
         st.job.state = .INACTIVE) :
    event_job_action_f post st = (st, none) := by
  rcases h with h | h | h | h | h <;> simp [event_job_action_f, h]

lemma action_f_depend_skip
    (post : PostSt → String → Nat → Ctx → Int → PostSt × Option Err)
    (st : PostSt) (h : st.job.state = .DEPEND)
    (hg : (job_dependency_count st.job = 0 ∧
           st.job.depend_posted = false) → False) :
    event_job_action_f post st = (st, none) := by
  have hg2 : (decide (job_dependency_count st.job = 0) &&
      !st.job.depend_posted) = false := by
    rcases hc : decide (job_dependency_count st.job = 0) with _ | _
    · rfl
    · rcases hd : st.job.depend_posted with _ | _
      · exact absurd ⟨of_decide_eq_true hc, hd⟩ hg
      · simp [hd]
  simp [event_job_action_f, h, hg2]

lemma action_f_depend_go
    (post : PostSt → String → Nat → Ctx → Int → PostSt × Option Err)
    (st : PostSt) (h : st.job.state = .DEPEND)
    (h1 : job_dependency_count st.job = 0)
    (h2 : st.job.depend_posted = false) :
    event_job_action_f post st =
      match post st "depend" 0 .noCtx 0 with
      | (st1, some e) => (st1, some e)
      | (st1, none) =>
        ({ st1 with job := { st1.job with depend_posted := true } },
         none) := by
  simp [event_job_action_f, h, h1, h2]

lemma action_f_cleanup_skip
    (post : PostSt → String → Nat → Ctx → Int → PostSt × Option Err)
    (st : PostSt) (h : st.job.state = .CLEANUP)
    (hg : (!st.job.alloc_queued && !st.job.alloc_pending
        && !st.job.free_pending && !st.job.start_pending
        && !st.job.has_resources) = false) :
    event_job_action_f post st = (st, none) := by
  simp only [event_job_action_f, h, hg]
  rfl

lemma action_f_cleanup_go
    (post : PostSt → String → Nat → Ctx → Int → PostSt × Option Err)
    (st : PostSt) (h : st.job.state = .CLEANUP)
    (hg : (!st.job.alloc_queued && !st.job.alloc_pending
        && !st.job.free_pending && !st.job.start_pending
        && !st.job.has_resources) = true) :
    event_job_action_f post st = post st "clean" 0 .noCtx 0 := by
  simp only [event_job_action_f, h, hg]
  rfl

lemma update_depend_of_name (job : Job) (entry : EventEntry)
    (hn : entry.name = "depend") :
    event_job_update job entry =
      if job.state = .DEPEND then ({ job with state := .PRIORITY }, none)
      else (job, some .EINVAL) := by
  simp only [event_job_update, hn, classify_depend]
  split_ifs <;> simp_all

lemma depend_post_eval (fuel : Nat) (st : PostSt)
    (hst : st.job.state = .DEPEND) :
    event_job_post_entry fuel true st "depend" 0 ⟨0, "depend", .noCtx⟩ =
      (core_apply
        { st with journalCalls := st.journalCalls ++
            [(core_seq 0 st.job.eventlog_seq, "depend")] }
        "depend" 0 ⟨0, "depend", .noCtx⟩ st.job.state
        (core_seq 0 st.job.eventlog_seq)
        { st.job with state := .PRIORITY }, none) := by
  have hupd : event_job_update st.job ⟨0, "depend", .noCtx⟩ =
      ({ st.job with state := .PRIORITY }, none) := by
    rw [update_depend_of_name st.job ⟨0, "depend", .noCtx⟩ rfl, if_pos hst]
  have hcore := core_eq_success st "depend" 0 ⟨0, "depend", .noCtx⟩ _ hupd
  have hprio : (core_apply
      { st with journalCalls := st.journalCalls ++
          [(core_seq 0 st.job.eventlog_seq, "depend")] }
      "depend" 0 ⟨0, "depend", .noCtx⟩ st.job.state
      (core_seq 0 st.job.eventlog_seq)
      { st.job with state := .PRIORITY }).job.state = .PRIORITY := by
    rw [core_apply_job_state]
  cases fuel with
  | zero =>
    simp only [event_job_post_entry, postEntryAux, hcore]
    rw [action_f_noop _ _ (Or.inr (Or.inl hprio))]
  | succ f =>
    simp only [event_job_post_entry, postEntryAux, hcore]
    rw [action_f_noop _ _ (Or.inr (Or.inl hprio))]

/-- The depend-latch invariant: at most one "depend" post has been
recorded, and once one has, the job has permanently left the NEW and
DEPEND states (so no further "depend" event can ever be applied). -/
def DependInv (st : PostSt) : Prop :=
  st.posts.count "depend" ≤ 1 ∧
  (st.posts.count "depend" = 1 →
    st.job.state ≠ .NEW ∧ st.job.state ≠ .DEPEND)

lemma core_inv (jOk : Bool) (st : PostSt) (name : String) (flags : Nat)
    (entry : EventEntry) (h : DependInv st) :
    DependInv (event_job_post_entry_core jOk st name flags entry).1 := by
  cases jOk with
  | false =>
    rw [core_eq_nojournal]
    exact h
  | true =>
    rcases hu : event_job_update st.job entry with ⟨j1, e1⟩
    rcases e1 with _ | err
    · rw [core_eq_success st name flags entry j1 hu]
      by_cases hn : entry.name = "depend"
      · rw [update_depend_of_name st.job entry hn] at hu
        split_ifs at hu with hdep
        · have hj1 : j1 = { st.job with state := .PRIORITY } := by
            simpa using hu.symm
          have hc0 : st.posts.count "depend" = 0 := by
            rcases h with ⟨hle, hone⟩
            rcases Nat.lt_or_ge (st.posts.count "depend") 1 with hlt | hge
            · omega
            · exfalso
              exact (hone (by omega)).2 hdep
          constructor
          · simp [core_apply_posts, List.count_append, hc0, hn]
          · intro _
            rw [core_apply_job_state, hj1]
            simp
        · simp at hu
      · have hstate := (update_master st.job entry).2.2.1
        rw [hu] at hstate
        simp only at hstate
        have hcount :
            ((st.posts ++ [entry.name]).count "depend") =
              st.posts.count "depend" := by
          simp [List.count_append]
          simp [List.count_singleton', hn]
        constructor
        · rw [core_apply_posts, hcount]
          exact h.1
        · intro hone
          rw [core_apply_posts, hcount] at hone
          rw [core_apply_job_state]
          exact hstate (h.2 hone)
    · rw [core_eq_err st name flags entry j1 err hu]
      have hstate := (update_master st.job entry).2.2.2.1 err
      rw [hu] at hstate
      simp only at hstate
      refine ⟨h.1, fun hone => ?_⟩
      have hs : j1.state = st.job.state := by
        first
          | exact hstate
          | exact hstate trivial
      show j1.state ≠ .NEW ∧ j1.state ≠ .DEPEND
      rw [hs]
      exact h.2 hone

lemma action_f_inv
    (post : PostSt → String → Nat → Ctx → Int → PostSt × Option Err)
    (hpost : ∀ st2 n fl c now, DependInv st2 →
      DependInv (post st2 n fl c now).1)
    (st : PostSt) (h : DependInv st) :
    DependInv (event_job_action_f post st).1 := by
  rcases hs : st.job.state with _ | _ | _ | _ | _ | _ | _
  case NEW => rw [action_f_noop post st (Or.inl hs)]; exact h
  case PRIORITY =>
    rw [action_f_noop post st (Or.inr (Or.inl hs))]; exact h
  case SCHED =>
    rw [action_f_noop post st (Or.inr (Or.inr (Or.inl hs)))]; exact h
  case RUN =>
    rw [action_f_noop post st (Or.inr (Or.inr (Or.inr (Or.inl hs))))]
    exact h
  case INACTIVE =>
    rw [action_f_noop post st (Or.inr (Or.inr (Or.inr (Or.inr hs))))]
    exact h
  case DEPEND =>
    by_cases hg : job_dependency_count st.job = 0 ∧
        st.job.depend_posted = false
    · rw [action_f_depend_go post st hs hg.1 hg.2]
      rcases hp : post st "depend" 0 .noCtx 0 with ⟨st1, e1⟩
      have h1 := hpost st "depend" 0 .noCtx 0 h
      rw [hp] at h1
      rcases e1 with _ | e1
      · constructor
        · exact h1.1
        · intro hone
          exact h1.2 hone
      · exact h1
    · rw [action_f_depend_skip post st hs (fun hc => hg hc)]
      exact h
  case CLEANUP =>
    rcases hg : (!st.job.alloc_queued && !st.job.alloc_pending
        && !st.job.free_pending && !st.job.start_pending
        && !st.job.has_resources) with _ | _
    · rw [action_f_cleanup_skip post st hs hg]
      exact h
    · rw [action_f_cleanup_go post st hs hg]
      exact hpost st "clean" 0 .noCtx 0 h

lemma post_entry_inv (fuel : Nat) :
    ∀ (jOk : Bool) (st : PostSt) (name : String) (flags : Nat)
      (entry : EventEntry), DependInv st →
      DependInv (event_job_post_entry fuel jOk st name flags entry).1 := by
  induction fuel with
  | zero =>
    intro jOk st name flags entry h
    simp only [event_job_post_entry, postEntryAux]
    rcases hc : event_job_post_entry_core jOk st name flags entry
      with ⟨st1, e1⟩
    have h1 := core_inv jOk st name flags entry h
    rw [hc] at h1
    rcases e1 with _ | e1
    · exact action_f_inv noFuelPost (fun st2 n fl c now h2 => h2) st1 h1
    · exact h1
  | succ f ih =>
    intro jOk st name flags entry h
    simp only [event_job_post_entry, postEntryAux]
    rcases hc : event_job_post_entry_core jOk st name flags entry
      with ⟨st1, e1⟩
    have h1 := core_inv jOk st name flags entry h
    rw [hc] at h1
    rcases e1 with _ | e1
    · refine action_f_inv _ ?_ st1 h1
      intro st2 n fl c now h2
      unfold fuelPost
      split_ifs with hnew
      · exact h2
      · exact ih jOk st2 n fl ⟨now, n, c⟩ h2
    · exact h1

lemma runPosts_inv (fuel : Nat) (jOk : Bool) :
    ∀ (cmds : List PCmd) (st : PostSt), DependInv st →
      DependInv (runPosts fuel jOk st cmds) := by
  intro cmds
  induction cmds with
  | nil => intro st h; exact h
  | cons c rest ih =>
    intro st h
    simp only [runPosts]
    refine ih _ ?_
    unfold event_job_post_vpack fuelPost
    split_ifs with hnew
    · exact h
    · exact post_entry_inv fuel jOk st c.name c.flags ⟨c.now, c.name, c.ctx⟩ h

/-- C7: in DEPEND state the per-state action posts "depend" exactly when
dependency_count == 0 and depend_posted is false, then latches
depend_posted; consequently over any sequence of posted events (in
particular dependency-add / dependency-remove) at most one "depend" is
ever posted, and the S2-style scenario posts it exactly once. -/
theorem c7_depend_posted_once (fuel : Nat) (st : PostSt) :
    (st.job.state = .DEPEND → job_dependency_count st.job = 0 →
      st.job.depend_posted = false →
      (event_job_action (fuel + 1) true st).1.posts =
        st.posts ++ ["depend"] ∧
      (event_job_action (fuel + 1) true st).1.job.depend_posted = true ∧
      (event_job_action (fuel + 1) true st).1.job.state = .PRIORITY ∧
      (event_job_action (fuel + 1) true st).2 = none) ∧
    (∀ jOk, st.job.state = .DEPEND →
      (job_dependency_count st.job ≠ 0 ∨ st.job.depend_posted = true) →
      event_job_action fuel jOk st = (st, none)) ∧
    (∀ (jOk : Bool) (job0 : Job) (cmds : List PCmd),
      ((runPosts fuel jOk { job := job0 } cmds).posts.count "depend")
        ≤ 1) ∧
    ((runPosts 2 true
        { job := { state := .DEPEND, dependencies := ["a", "b"] } }
        [⟨"dependency-remove", 0, .dependencyCtx "a", 1⟩,
         ⟨"dependency-remove", 0, .dependencyCtx "b", 2⟩]).posts.count
        "depend") = 1 := by
  refine ⟨?_, ?_, ?_, ?_⟩
  · intro hst hcount hdp
    have hl : fuelPost (event_job_post_entry fuel true) st "depend" 0
        Ctx.noCtx 0 =
        (core_apply
          { st with journalCalls := st.journalCalls ++
              [(core_seq 0 st.job.eventlog_seq, "depend")] }
          "depend" 0 ⟨0, "depend", .noCtx⟩ st.job.state
          (core_seq 0 st.job.eventlog_seq)
          { st.job with state := .PRIORITY }, none) := by
      unfold fuelPost
      rw [if_neg (show ¬ st.job.state = .NEW by simp [hst])]
      exact depend_post_eval fuel st hst
    simp only [event_job_action]
    rw [action_f_depend_go _ st hst hcount hdp]
    simp only [hl]
    refine ⟨?_, ?_, ?_, ?_⟩ <;>
      simp [core_apply_posts, core_apply_job_state]
  · intro jOk hst hor
    have hg : (job_dependency_count st.job = 0 ∧
        st.job.depend_posted = false) → False := by
      intro hc
      rcases hor with h | h
      · exact h hc.1
      · rw [hc.2] at h
        exact absurd h (by decide)
    cases fuel with
    | zero =>
      simp only [event_job_action]
      exact action_f_depend_skip _ st hst hg
    | succ f =>
      simp only [event_job_action]
      exact action_f_depend_skip _ st hst hg
  · intro jOk job0 cmds
    have h0 : DependInv ({ job := job0 } : PostSt) := by
      constructor
      · simp
      · intro h1
        simp at h1
    exact (runPosts_inv fuel jOk cmds { job := job0 } h0).1
  · simp [runPosts, event_job_post_vpack, fuelPost, event_job_post_entry,
      postEntryAux, event_job_post_entry_core, core_apply, core_seq,
      event_job_update, classify, strLeads, strAfter,
      event_handle_dependency, job_dependency_add, job_dependency_remove,
      job_dependency_count, event_index, job_event_id_set,
      event_batch_commit_event_p, event_batch_pub_state_p,
      event_job_action_f, noFuelPost, JobState.isRunningState,
      EVENT_NO_COMMIT, EVENT_FORCE_SEQUENCE, stateToStr]

theorem c7_witness :
    (event_job_action 2 true
      { job := { state := .DEPEND } }).1.posts = ["depend"] ∧
    (event_job_action 2 true
      { job := { state := .DEPEND } }).1.job.depend_posted = true ∧
    (event_job_action 2 true
      { job := { state := .DEPEND } }).1.job.state = .PRIORITY ∧
    (event_job_action 2 true { job := { state := .DEPEND } }).2 = none :=
  (c7_depend_posted_once 1 { job := { state := .DEPEND } }).1 rfl rfl rfl

/-- A trace is publication-ordered when every `job-state` publication
for a batch whose KVS commit was issued comes strictly after that
batch's commit resolution. -/
def PubOrdered (tr : List BAct) : Prop :=
  ∀ j bid p, tr.get? j = some (BAct.publish bid p) →
    BAct.commitStart bid ∈ tr →
    ∃ i ok, i < j ∧ tr.get? i = some (BAct.commitResolved bid ok)

lemma destroy_acts_mem (b : BatchData) (a : BAct)
    (h : a ∈ event_batch_destroy_acts b) :
    a = BAct.publish b.bid b.stateTrans ∨ ∃ m, a = BAct.send b.bid m := by
  unfold event_batch_destroy_acts at h
  rcases List.mem_append.1 h with h1 | h1
  · split_ifs at h1 with hc
    · simp at h1
      exact Or.inl h1
    · simp at h1
  · rcases List.mem_map.1 h1 with ⟨m, _, hm⟩
    exact Or.inr ⟨m, hm.symm⟩

lemma destroy_acts_no_start (b : BatchData) (bid : Nat) :
    BAct.commitStart bid ∉ event_batch_destroy_acts b := by
  intro h
  rcases destroy_acts_mem b _ h with h1 | ⟨m, h1⟩ <;> simp at h1

lemma destroy_acts_pub_bid (b : BatchData) (bid : Nat)
    (p : List (Nat × String × Int))
    (h : BAct.publish bid p ∈ event_batch_destroy_acts b) :
    bid = b.bid := by
  rcases destroy_acts_mem b _ h with h1 | ⟨m, h1⟩ <;> simp at h1
  exact h1.1

lemma drainActs_mem (bs : List BatchData) (oks : List Bool) (a : BAct)
    (h : a ∈ drainActs bs oks) :
    ∃ b, b ∈ bs ∧ ((∃ ok, a = BAct.commitResolved b.bid ok) ∨
      a = BAct.publish b.bid b.stateTrans ∨
      ∃ m, a = BAct.send b.bid m) := by
  induction bs generalizing oks with
  | nil => simp [drainActs] at h
  | cons b rest ih =>
    have hshape : drainActs (b :: rest) oks =
        BAct.commitResolved b.bid (oks.headD true) ::
          (event_batch_destroy_acts b ++ drainActs rest oks.tail) := rfl
    rw [hshape] at h
    rcases List.mem_cons.1 h with h1 | h1
    · exact ⟨b, List.mem_cons_self b rest,
        Or.inl ⟨oks.headD true, h1⟩⟩
    · rcases List.mem_append.1 h1 with h2 | h2
      · exact ⟨b, List.mem_cons_self b rest,
          Or.inr (destroy_acts_mem b a h2)⟩
      · rcases ih oks.tail h2 with ⟨b2, hb2, hcase⟩
        exact ⟨b2, List.mem_cons_of_mem b hb2, hcase⟩

lemma drainActs_no_start (bs : List BatchData) (oks : List Bool)
    (bid : Nat) : BAct.commitStart bid ∉ drainActs bs oks := by
  intro h
  rcases drainActs_mem bs oks _ h with ⟨b, _, h1 | h1 | h1⟩
  · rcases h1 with ⟨ok, h1⟩
    simp at h1
  · simp at h1
  · rcases h1 with ⟨m, h1⟩
    simp at h1

lemma drainActs_pub_resolved (bs : List BatchData) (oks : List Bool)
    (k : Nat) (bid : Nat) (p : List (Nat × String × Int))
    (h : (drainActs bs oks).get? k = some (BAct.publish bid p)) :
    ∃ i ok, i < k ∧
      (drainActs bs oks).get? i = some (BAct.commitResolved bid ok) := by
  induction bs generalizing oks k with
  | nil => simp [drainActs] at h
  | cons b rest ih =>
    have hshape : drainActs (b :: rest) oks =
        BAct.commitResolved b.bid (oks.headD true) ::
          (event_batch_destroy_acts b ++ drainActs rest oks.tail) := rfl
    rw [hshape] at h
    rcases k with _ | k2
    · simp at h
    · rw [List.get?_cons_succ] at h
      rcases Nat.lt_or_ge k2 (event_batch_destroy_acts b).length with
        hlt | hge
      · rw [List.get?_append hlt] at h
        have hbid : bid = b.bid :=
          destroy_acts_pub_bid b bid p (List.get?_mem h)
        refine ⟨0, oks.headD true, Nat.succ_pos k2, ?_⟩
        rw [hshape, hbid]
        rfl
      · rw [List.get?_append_right hge] at h
        rcases ih oks.tail (k2 - (event_batch_destroy_acts b).length) h
          with ⟨i, ok, hik, hget⟩
        refine ⟨(event_batch_destroy_acts b).length + i + 1, ok, by omega,
          ?_⟩
        rw [hshape, List.get?_cons_succ,
          List.get?_append_right (by omega)]
        have heq : (event_batch_destroy_acts b).length + i -
            (event_batch_destroy_acts b).length = i := by omega
        rw [heq]
        exact hget

lemma pubOrdered_append (tr ext : List BAct)
    (h1 : PubOrdered tr)
    (h2 : ∀ bid, (∃ a ∈ ext, a = BAct.commitStart bid) →
      ∀ a ∈ tr, hasBid bid a = false)
    (h3 : ∀ k bid p, ext.get? k = some (BAct.publish bid p) →
      (∃ i ok, i < k ∧
        ext.get? i = some (BAct.commitResolved bid ok)) ∨
      (BAct.commitStart bid ∉ tr ∧ BAct.commitStart bid ∉ ext)) :
    PubOrdered (tr ++ ext) := by
  intro j bid p hj hstart
  rcases Nat.lt_or_ge j tr.length with hlt | hge
  · rw [List.get?_append hlt] at hj
    rcases List.mem_append.1 hstart with hs | hs
    · rcases h1 j bid p hj hs with ⟨i, ok, hij, hget⟩
      refine ⟨i, ok, hij, ?_⟩
      rw [List.get?_append (by omega)]
      exact hget
    · exfalso
      have := h2 bid ⟨_, hs, rfl⟩ _ (List.get?_mem hj)
      simp [hasBid] at this
  · rw [List.get?_append_right hge] at hj
    rcases h3 (j - tr.length) bid p hj with ⟨i, ok, hik, hget⟩ | ⟨hn1, hn2⟩
    · refine ⟨tr.length + i, ok, by omega, ?_⟩
      rw [List.get?_append_right (by omega)]
      have : tr.length + i - tr.length = i := by omega
      rw [this]
      exact hget
    · exfalso
      rcases List.mem_append.1 hstart with hs | hs
      · exact hn1 hs
      · exact hn2 hs

lemma destroy_acts_hasBid (b : BatchData) (a : BAct) (x : Nat)
    (ha : a ∈ event_batch_destroy_acts b) (hx : hasBid x a = true) :
    x = b.bid := by
  rcases destroy_acts_mem b a ha with h1 | ⟨m, h1⟩ <;> subst h1
  · have h2 : b.bid = x := by simpa [hasBid] using hx
    exact h2.symm
  · have h2 : b.bid = x := by simpa [hasBid] using hx
    exact h2.symm

lemma drainActs_hasBid (bs : List BatchData) (oks : List Bool) (a : BAct)
    (x : Nat) (ha : a ∈ drainActs bs oks) (hx : hasBid x a = true) :
    ∃ b, b ∈ bs ∧ x = b.bid := by
  rcases drainActs_mem bs oks a ha with ⟨b, hb, h1 | h1 | h1⟩
  · rcases h1 with ⟨ok, rfl⟩
    have h2 : b.bid = x := by simpa [hasBid] using hx
    exact ⟨b, hb, h2.symm⟩
  · subst h1
    have h2 : b.bid = x := by simpa [hasBid] using hx
    exact ⟨b, hb, h2.symm⟩
  · rcases h1 with ⟨m, rfl⟩
    have h2 : b.bid = x := by simpa [hasBid] using hx
    exact ⟨b, hb, h2.symm⟩

/-- The batch engine invariant: batch ids in the trace, the pending
FIFO and the accumulating batch are below the fresh counter; the
accumulating batch's id appears nowhere in the trace nor in the pending
FIFO; and the trace is publication-ordered. -/
structure BInv (s : BSys) : Prop where
  traceFresh : ∀ a ∈ s.trace, ∀ bid, hasBid bid a = true → bid < s.nextBid
  pendFresh : ∀ b ∈ s.pending, b.bid < s.nextBid
  curFresh : ∀ b, s.batch = some b → b.bid < s.nextBid
  curClean : ∀ b, s.batch = some b → ∀ a ∈ s.trace, hasBid b.bid a = false
  curNotPend : ∀ b bp, s.batch = some b → bp ∈ s.pending → bp.bid ≠ b.bid
  ordered : PubOrdered s.trace

lemma binv_init : BInv {} := by
  refine ⟨?_, ?_, ?_, ?_, ?_, ?_⟩
  · intro a ha bid hx
    exact absurd ha (List.not_mem_nil a)
  · intro b hb
    exact absurd hb (List.not_mem_nil b)
  · intro b hb
    exact Option.noConfusion hb
  · intro b hb a ha
    exact Option.noConfusion hb
  · intro b bp hb hbp
    exact Option.noConfusion hb
  · intro j bid p hj
    exact Option.noConfusion ((List.get?_eq_none.2 (by simp)).symm.trans hj)

lemma start_eq_of_some (s : BSys) (b : BatchData) (hb : s.batch = some b) :
    event_batch_start s = s := by
  unfold event_batch_start
  rw [hb]

lemma start_eq_of_none (s : BSys) (hb : s.batch = none) :
    event_batch_start s =
      { s with batch := some { bid := s.nextBid },
               nextBid := s.nextBid + 1 } := by
  unfold event_batch_start
  rw [hb]

lemma binv_start (s : BSys) (h : BInv s) : BInv (event_batch_start s) := by
  cases hb : s.batch with
  | some b => rw [start_eq_of_some s b hb]; exact h
  | none =>
    rw [start_eq_of_none s hb]
    refine ⟨?_, ?_, ?_, ?_, ?_, ?_⟩
    · intro a ha bid hx
      dsimp only at ha ⊢
      have := h.traceFresh a ha bid hx
      omega
    · intro b2 hb2
      dsimp only at hb2 ⊢
      have := h.pendFresh b2 hb2
      omega
    · intro b2 hb2
      dsimp only at hb2 ⊢
      injection hb2 with hb2
      subst hb2
      dsimp only
      omega
    · intro b2 hb2 a ha
      dsimp only at hb2 ha
      injection hb2 with hb2
      subst hb2
      dsimp only
      rcases hy : hasBid s.nextBid a with _ | _
      · rfl
      · exfalso
        have := h.traceFresh a ha _ hy
        omega
    · intro b2 bp hb2 hbp
      dsimp only at hb2 hbp
      injection hb2 with hb2
      subst hb2
      dsimp only
      have := h.pendFresh bp hbp
      omega
    · exact h.ordered

lemma binv_setBatch (s : BSys) (b b2 : BatchData) (hb : s.batch = some b)
    (hbid : b2.bid = b.bid) (h : BInv s) :
    BInv { s with batch := some b2 } := by
  refine ⟨?_, ?_, ?_, ?_, ?_, ?_⟩
  · intro a ha bid hx
    exact h.traceFresh a ha bid hx
  · intro b3 hb3
    exact h.pendFresh b3 hb3
  · intro b3 hb3
    dsimp only at hb3
    injection hb3 with hb3
    subst hb3
    dsimp only
    rw [hbid]
    exact h.curFresh b hb
  · intro b3 hb3 a ha
    dsimp only at hb3 ha
    injection hb3 with hb3
    subst hb3
    rw [hbid]
    exact h.curClean b hb a ha
  · intro b3 bp hb3 hbp
    dsimp only at hb3 hbp
    injection hb3 with hb3
    subst hb3
    rw [hbid]
    exact h.curNotPend b bp hb hbp
  · exact h.ordered

lemma binv_accum (s : BSys) (f : BatchData → BatchData)
    (hf : ∀ b, (f b).bid = b.bid) (h : BInv s) :
    BInv (match (event_batch_start s).batch with
          | none => event_batch_start s
          | some b => { event_batch_start s with batch := some (f b) }) := by
  have hs := binv_start s h
  cases hb : (event_batch_start s).batch with
  | none => exact hs
  | some b =>
    exact binv_setBatch (event_batch_start s) b (f b) hb (hf b) hs

lemma binv_commit_event (s : BSys) (e : String) (h : BInv s) :
    BInv (event_batch_commit_event s e) :=
  binv_accum s (fun b => { b with txn := b.txn ++ [e] }) (fun _ => rfl) h

lemma binv_pub_state (s : BSys) (t : Nat × String × Int) (h : BInv s) :
    BInv (event_batch_pub_state s t) :=
  binv_accum s (fun b => { b with stateTrans := b.stateTrans ++ [t] })
    (fun _ => rfl) h

lemma binv_respond (s : BSys) (m : Nat) (h : BInv s) :
    BInv (event_batch_respond s m) :=
  binv_accum s (fun b => { b with responses := b.responses ++ [m] })
    (fun _ => rfl) h

lemma binv_commit (s : BSys) (h : BInv s) :
    BInv (event_batch_commit s) := by
  cases hb : s.batch with
  | none =>
    unfold event_batch_commit
    rw [hb]
    exact h
  | some b =>
    unfold event_batch_commit
    rw [hb]
    dsimp only
    split_ifs with ht
    · -- at least one KVS append: issue commit, move to pending
      refine ⟨?_, ?_, ?_, ?_, ?_, ?_⟩
      · intro a ha bid hx
        dsimp only at ha ⊢
        rcases List.mem_append.1 ha with h1 | h1
        · exact h.traceFresh a h1 bid hx
        · have : a = BAct.commitStart b.bid := by simpa using h1
          subst this
          have hbid : b.bid = bid := by simpa [hasBid] using hx
          rw [← hbid]
          exact h.curFresh b hb
      · intro b2 hb2
        dsimp only at hb2 ⊢
        rcases List.mem_append.1 hb2 with h1 | h1
        · exact h.pendFresh b2 h1
        · have : b2 = b := by simpa using h1
          subst this
          exact h.curFresh b2 hb
      · intro b2 hb2
        exact Option.noConfusion hb2
      · intro b2 hb2 a ha
        exact Option.noConfusion hb2
      · intro b2 bp hb2 hbp
        exact Option.noConfusion hb2
      · refine pubOrdered_append s.trace _ h.ordered ?_ ?_
        · intro bid hex a ha
          rcases hex with ⟨a2, ha2, he⟩
          have : a2 = BAct.commitStart b.bid := by simpa using ha2
          rw [this] at he
          injection he with he
          rw [← he]
          exact h.curClean b hb a ha
        · intro k bid p hk
          rcases k with _ | k2
          · simp at hk
          · simp at hk
    · -- no KVS append: destroy immediately (publish without commit)
      refine ⟨?_, ?_, ?_, ?_, ?_, ?_⟩
      · intro a ha bid hx
        dsimp only at ha ⊢
        rcases List.mem_append.1 ha with h1 | h1
        · exact h.traceFresh a h1 bid hx
        · rw [destroy_acts_hasBid b a bid h1 hx]
          exact h.curFresh b hb
      · intro b2 hb2
        exact h.pendFresh b2 hb2
      · intro b2 hb2
        exact Option.noConfusion hb2
      · intro b2 hb2 a ha
        exact Option.noConfusion hb2
      · intro b2 bp hb2 hbp
        exact Option.noConfusion hb2
      · refine pubOrdered_append s.trace _ h.ordered ?_ ?_
        · intro bid hex a ha
          rcases hex with ⟨a2, ha2, he⟩
          rw [he] at ha2
          exact absurd ha2 (destroy_acts_no_start b bid)
        · intro k bid p hk
          right
          have hmem := List.get?_mem hk
          have hbid := destroy_acts_pub_bid b bid p hmem
          subst hbid
          constructor
          · intro hmem2
            have := h.curClean b hb _ hmem2
            simp [hasBid] at this
          · exact destroy_acts_no_start b b.bid

lemma commit_batch_none (s : BSys) : (event_batch_commit s).batch = none := by
  unfold event_batch_commit
  cases hb : s.batch with
  | none => exact hb
  | some b =>
    dsimp only
    split_ifs <;> rfl

lemma binv_resolve (s : BSys) (i : Nat) (ok : Bool) (h : BInv s) :
    BInv (commit_continuation s i ok) := by
  unfold commit_continuation
  cases hp : s.pending.get? i with
  | none => exact h
  | some b =>
    dsimp only
    have hbmem : b ∈ s.pending := List.get?_mem hp
    have hassoc : s.trace ++ [BAct.commitResolved b.bid ok] ++
        (if ok then [] else [BAct.stopError]) ++ event_batch_destroy_acts b
        = s.trace ++ ([BAct.commitResolved b.bid ok] ++
          ((if ok then [] else [BAct.stopError]) ++
            event_batch_destroy_acts b)) := by
      simp [List.append_assoc]
    rw [hassoc]
    have hext_bid : ∀ a ∈ [BAct.commitResolved b.bid ok] ++
        ((if ok then [] else [BAct.stopError])
          ++ event_batch_destroy_acts b),
        ∀ x, hasBid x a = true → x = b.bid := by
      intro a ha x hx
      rcases List.mem_append.1 ha with h1 | h1
      · have : a = BAct.commitResolved b.bid ok := by simpa using h1
        subst this
        have h3 : b.bid = x := by simpa [hasBid] using hx
        exact h3.symm
      · rcases List.mem_append.1 h1 with h2 | h2
        · split_ifs at h2
          · simp at h2
          · have : a = BAct.stopError := by simpa using h2
            subst this
            simp [hasBid] at hx
        · exact destroy_acts_hasBid b a x h2 hx
    have hext_nostart : ∀ bid, BAct.commitStart bid ∉
        [BAct.commitResolved b.bid ok] ++
        ((if ok then [] else [BAct.stopError])
          ++ event_batch_destroy_acts b) := by
      intro bid hmem
      rcases List.mem_append.1 hmem with h1 | h1
      · simp at h1
      · rcases List.mem_append.1 h1 with h2 | h2
        · split_ifs at h2 <;> simp at h2
        · exact destroy_acts_no_start b bid h2
    refine ⟨?_, ?_, ?_, ?_, ?_, ?_⟩
    · intro a ha bid hx
      dsimp only at ha ⊢
      rcases List.mem_append.1 ha with h1 | h1
      · exact h.traceFresh a h1 bid hx
      · rw [hext_bid a h1 bid hx]
        exact h.pendFresh b hbmem
    · intro b2 hb2
      dsimp only at hb2 ⊢
      exact h.pendFresh b2 ((List.eraseIdx_sublist s.pending i).mem hb2)
    · intro b2 hb2
      exact h.curFresh b2 hb2
    · intro b2 hb2 a ha
      dsimp only at hb2 ha
      rcases List.mem_append.1 ha with h1 | h1
      · exact h.curClean b2 hb2 a h1
      · rcases hy : hasBid b2.bid a with _ | _
        · rfl
        · exfalso
          have hbb := hext_bid a h1 b2.bid hy
          exact h.curNotPend b2 b hb2 hbmem (hbb ▸ rfl)
    · intro b2 bp hb2 hbp
      dsimp only at hbp
      exact h.curNotPend b2 bp hb2
        ((List.eraseIdx_sublist s.pending i).mem hbp)
    · refine pubOrdered_append s.trace _ h.ordered ?_ ?_
      · intro bid hex a ha
        rcases hex with ⟨a2, ha2, he⟩
        rw [he] at ha2
        exact absurd ha2 (hext_nostart bid)
      · intro k bid p hk
        left
        have hmem := List.get?_mem hk
        have hbid : bid = b.bid := by
          rcases List.mem_append.1 hmem with h1 | h1
          · simp at h1
          · rcases List.mem_append.1 h1 with h2 | h2
            · split_ifs at h2 <;> simp at h2
            · exact destroy_acts_pub_bid b bid p h2
        have hk0 : k ≠ 0 := by
          intro hk0
          subst hk0
          simp at hk
        refine ⟨0, ok, by omega, ?_⟩
        rw [hbid]
        rfl

lemma binv_flush (s : BSys) (oks : List Bool) (h : BInv s) :
    BInv (event_ctx_destroy_flush s oks) := by
  unfold event_ctx_destroy_flush
  have hc := binv_commit s h
  have hbn := commit_batch_none s
  refine ⟨?_, ?_, ?_, ?_, ?_, ?_⟩
  · intro a ha bid hx
    dsimp only at ha ⊢
    rcases List.mem_append.1 ha with h1 | h1
    · exact hc.traceFresh a h1 bid hx
    · rcases drainActs_hasBid _ oks a bid h1 hx with ⟨b, hb, rfl⟩
      exact hc.pendFresh b hb
  · intro b hb
    dsimp only at hb
    exact absurd hb (List.not_mem_nil b)
  · intro b hb
    dsimp only at hb
    rw [hbn] at hb
    exact Option.noConfusion hb
  · intro b hb a ha
    dsimp only at hb
    rw [hbn] at hb
    exact Option.noConfusion hb
  · intro b bp hb hbp
    dsimp only at hb
    rw [hbn] at hb
    exact Option.noConfusion hb
  · dsimp only
    refine pubOrdered_append _ _ hc.ordered ?_ ?_
    · intro bid hex a ha
      rcases hex with ⟨a2, ha2, he⟩
      rw [he] at ha2
      exact absurd ha2 (drainActs_no_start _ oks bid)
    · intro k bid p hk
      left
      exact drainActs_pub_resolved _ oks k bid p hk

lemma binv_step (s : BSys) (c : BCmd) (h : BInv s) : BInv (bstep s c) := by
  cases c with
  | append e => exact binv_commit_event s e h
  | pubState t => exact binv_pub_state s t h
  | respond m => exact binv_respond s m h
  | timerFire => exact binv_commit s h
  | resolve i ok => exact binv_resolve s i ok h
  | shutdown oks => exact binv_flush s oks h

lemma binv_brun (cmds : List BCmd) : BInv (brun cmds) := by
  unfold brun
  have H : ∀ (l : List BCmd) (s : BSys), BInv s → BInv (l.foldl bstep s) := by
    intro l
    induction l with
    | nil => intro s hs; exact hs
    | cons c rest ih =>
      intro s hs
      exact ih (bstep s c) (binv_step s c hs)
  exact H cmds {} binv_init

/-- C1: in every reachable run of the batch engine, a `job-state`
publication for a batch whose KVS commit was issued (it contained at
least one KVS append) occurs in the trace strictly after that batch's
commit future resolved; publication happens only during batch
destruction, which follows commit resolution. -/
theorem c1_pub_after_commit_resolution (cmds : List BCmd) (bid : Nat)
    (p : List (Nat × String × Int)) (j : Nat)
    (hpub : (brun cmds).trace.get? j = some (BAct.publish bid p))
    (hstart : BAct.commitStart bid ∈ (brun cmds).trace) :
    ∃ i ok, i < j ∧
      (brun cmds).trace.get? i = some (BAct.commitResolved bid ok) :=
  (binv_brun cmds).ordered j bid p hpub hstart

theorem c1_witness :
    ∃ i ok, i < 2 ∧
      (brun [.append "e", .pubState (1, "RUN", 5), .timerFire,
             .resolve 0 true]).trace.get? i =
        some (BAct.commitResolved 0 ok) :=
  c1_pub_after_commit_resolution
    [.append "e", .pubState (1, "RUN", 5), .timerFire, .resolve 0 true]
    0 [(1, "RUN", 5)] 2 (by decide) (by decide)

/-- C2 counterexample: when a batch's commit future resolves with an
error, the reactor is stopped with error but the batch's `job-state`
publication is still emitted and its deferred reply is still sent
during batch destruction, contradicting the claim that they are
dropped. -/
theorem c2_counterexample :
    (brun [.append "e", .pubState (1, "RUN", 5), .respond 7, .timerFire,
           .resolve 0 false]).trace =
      [BAct.commitStart 0, BAct.commitResolved 0 false, BAct.stopError,
       BAct.publish 0 [(1, "RUN", 5)], BAct.send 0 7] := by decide

/-- C2 amended: for every batch whose commit future resolves with an
error, the reactor is stopped with error immediately after the
resolution; the batch is then destroyed all the same, so its pub
notification (when it has accumulated transitions) is still emitted
and its deferred replies are still sent, after the reactor stop. -/
theorem c2_amended (s : BSys) (i : Nat) (b : BatchData)
    (hb : s.pending.get? i = some b) :
    (commit_continuation s i false).trace =
      s.trace ++ [BAct.commitResolved b.bid false, BAct.stopError]
        ++ event_batch_destroy_acts b ∧
    (b.stateTrans ≠ [] →
      BAct.publish b.bid b.stateTrans ∈ event_batch_destroy_acts b) ∧
    (∀ m ∈ b.responses, BAct.send b.bid m ∈ event_batch_destroy_acts b) := by
  refine ⟨?_, ?_, ?_⟩
  · unfold commit_continuation
    rw [hb]
    dsimp only
    simp
  · intro hne
    unfold event_batch_destroy_acts
    rw [if_pos hne]
    simp
  · intro m hm
    unfold event_batch_destroy_acts
    rcases hst : b.stateTrans with _ | _ <;>
      simp [List.mem_map, hm]

def cBatch : BatchData :=
  { bid := 0, txn := ["e"], stateTrans := [(1, "RUN", 5)],
    responses := [7] }

def cSys : BSys :=
  { batch := none, pending := [cBatch], nextBid := 1,
    trace := [BAct.commitStart 0] }

theorem c2_witness :
    (commit_continuation cSys 0 false).trace =
      cSys.trace ++ [BAct.commitResolved cBatch.bid false, BAct.stopError]
        ++ event_batch_destroy_acts cBatch ∧
    (cBatch.stateTrans ≠ [] →
      BAct.publish cBatch.bid cBatch.stateTrans ∈
        event_batch_destroy_acts cBatch) ∧
    (∀ m ∈ cBatch.responses,
      BAct.send cBatch.bid m ∈ event_batch_destroy_acts cBatch) :=
  c2_amended cSys 0 cBatch rfl
